import Mathlib

/-!
Verification of the ABeamer expression evaluator
(`src/client/lib/js/expressions.ts`).

Modelling conventions:

* JS 64-bit floats are modelled as rationals (`ℚ`).  A numeric field that may
  hold JS `undefined` or `NaN` is modelled as `Option ℚ` (`none` standing for
  either); division by zero yields `0` instead of IEEE infinity.  No claim in
  this development depends on rounding, infinities, or NaN distinctions.
* Numeric arrays are JS objects passed by reference; to make the source's
  in-place mutation observable we model them with an explicit heap
  (`Heap := List (List JQ)`), array tokens and array variables holding heap
  indices.
* The function registry `_exFunctions` is defined outside `src/`; following
  the spec (§4.3, §6) it is modelled as an abstract mapping from names to
  total Lean functions (`Registry`).
* The evaluator's main loop is written with explicit fuel; `calcExprH` runs it
  with fuel `expr.length + 1`, which theorem `c9_termination` proves is always
  sufficient.
-/

set_option linter.unusedVariables false

/-- A JS number field: `none` models `undefined`/`NaN`. -/
abbrev JQ := Option ℚ

/-- The store of array objects; an array value is an index into this list. -/
abbrev Heap := List (List JQ)

/-- `ExFuncParamType` of the function-registry interface (String, Number,
Array, Any). -/
inductive PaType
  | string
  | number
  | array
  | any
  deriving DecidableEq, Repr

/-- `TokenType` enum of the source (same constructor order). -/
inductive TokenType
  | none
  | function
  | arrayOpen
  | arrayClose
  | comma
  | paramOpen
  | paramClose
  | value
  | plus
  | minus
  | multiply
  | divide
  | mod
  | equal
  | different
  | lesser
  | greater
  | lessEqual
  | greaterEqual
  | logicalAnd
  | logicalOr
  | logicalNot
  deriving DecidableEq, Repr

/-- `TokenClass` enum of the source. -/
inductive TokenClass
  | none
  | function
  | arrayOpen
  | arrayClose
  | value
  | paramOpen
  | paramClose
  | unary
  | logicalUnary
  | binary
  | comma
  deriving DecidableEq, Repr

/-- `opPriority` table (source lines 285-308), as a function of the token
type. -/
def opPriority : TokenType → ℕ
  | .none => 0
  | .function => 19
  | .arrayOpen => 19
  | .arrayClose => 19
  | .comma => 19
  | .paramOpen => 20
  | .paramClose => 20
  | .value => 1
  | .plus => 13
  | .minus => 13
  | .multiply => 14
  | .divide => 14
  | .mod => 14
  | .equal => 10
  | .different => 10
  | .lesser => 11
  | .greater => 11
  | .lessEqual => 11
  | .greaterEqual => 11
  | .logicalAnd => 6
  | .logicalOr => 5
  | .logicalNot => 16

/-- `Type2Class` table (source lines 311-337).  Note that `+` and `-` are
classified `Unary`; the state machine treats a class-`Unary` token as a binary
operator whenever it does not appear in operand position. -/
def Type2Class : TokenType → TokenClass
  | .none => .none
  | .function => .function
  | .arrayOpen => .arrayOpen
  | .arrayClose => .arrayClose
  | .comma => .comma
  | .paramOpen => .paramOpen
  | .paramClose => .paramClose
  | .value => .value
  | .plus => .unary
  | .minus => .unary
  | .multiply => .binary
  | .divide => .binary
  | .mod => .binary
  | .equal => .binary
  | .different => .binary
  | .lesser => .binary
  | .greater => .binary
  | .lessEqual => .binary
  | .greaterEqual => .binary
  | .logicalAnd => .binary
  | .logicalOr => .binary
  | .logicalNot => .logicalUnary

/-- The `Token` record of the source.  All payload fields are optional, as in
the dynamically typed original (`none` = the field was never assigned).
`arrayValue` holds a heap reference. -/
inductive Tok : Type where
  | mk (tkType : TokenType) (tkClass : TokenClass) (canBinOp : Bool)
      (paType : Option PaType) (sValue : Option String) (numValue : JQ)
      (arrayValue : Option ℕ) (funcParams : Option (List Tok))

def Tok.tkType : Tok → TokenType
  | .mk t _ _ _ _ _ _ _ => t

def Tok.tkClass : Tok → TokenClass
  | .mk _ c _ _ _ _ _ _ => c

def Tok.canBinOp : Tok → Bool
  | .mk _ _ b _ _ _ _ _ => b

def Tok.paType : Tok → Option PaType
  | .mk _ _ _ p _ _ _ _ => p

def Tok.sValue : Tok → Option String
  | .mk _ _ _ _ s _ _ _ => s

def Tok.numValue : Tok → JQ
  | .mk _ _ _ _ _ n _ _ => n

def Tok.arrayValue : Tok → Option ℕ
  | .mk _ _ _ _ _ _ a _ => a

def Tok.funcParams : Tok → Option (List Tok)
  | .mk _ _ _ _ _ _ _ f => f

def Tok.setNumValue (v : JQ) : Tok → Tok
  | .mk t c b p s _ a f => .mk t c b p s v a f

def Tok.setSValue (v : Option String) : Tok → Tok
  | .mk t c b p _ n a f => .mk t c b p v n a f

def Tok.setPaType (v : Option PaType) : Tok → Tok
  | .mk t c b _ s n a f => .mk t c b v s n a f

def Tok.setCanBinOp (v : Bool) : Tok → Tok
  | .mk t c _ p s n a f => .mk t c v p s n a f

def Tok.setFuncParams (v : Option (List Tok)) : Tok → Tok
  | .mk t c b p s n a _ => .mk t c b p s n a v

/-- `funcToken.funcParams.push(tok)` of the source. -/
def Tok.pushParam : Tok → Tok → Tok
  | .mk t c b p s n a f, tok => .mk t c b p s n a (some ((f.getD []) ++ [tok]))

/-- A freshly created token `{}` (all fields `undefined`). -/
def defTok : Tok := .mk .none .none false none none none none none

/-- A value held by the Variable Context: number, string, boolean or (a
reference to) a numeric array. -/
inductive JsVar
  | num (q : ℚ)
  | str (s : String)
  | bool (b : Bool)
  | arr (ref : ℕ)
  deriving DecidableEq, Repr

/-- The Variable Context (`p.args.vars`). -/
abbrev Vars := String → Option JsVar

/-- The error taxonomy: `expErr` models `err`/`throwI8n(Msgs.ExpHasErrors,
{e, err})` carrying the whole expression text and a message; `rawErr` models
the bare `throwErr` used inside `execOp`. -/
inductive EvalErr
  | expErr (expr : String) (msg : String)
  | rawErr (msg : String)
  | mustBeANumber (p : String)
  | mustBeAString (p : String)
  deriving DecidableEq, Repr

/-- The result of an evaluation (`ExprResult` of the source, with arrays
dereferenced); `undef` models a JS `undefined`/NaN payload. -/
inductive ExprResult
  | undef
  | num (q : ℚ)
  | str (s : String)
  | arr (xs : List JQ)
  deriving DecidableEq, Repr

/-- A registered expression function: receives the evaluated argument tokens
and the heap, returns a result token (its payload fields are copied onto a
fresh `Value` token) and a possibly extended heap. -/
abbrev ExFunc := List Tok → Heap → Except EvalErr (Tok × Heap)

/-- The function registry (`_exFunctions`), defined outside `src/`; modelled
abstractly per spec §4.3. -/
abbrev Registry := String → Option ExFunc

/-- The empty registry (no functions installed). -/
def emptyRegistry : Registry := fun _ => none

/-- The empty variable context. -/
def noVars : Vars := fun _ => none

-- ------------------------------------------------------------------
-- Character utilities and host-primitive models
-- ------------------------------------------------------------------

/-- Default `CharRanges` (latin alphabet; source lines 162-165). -/
def CharRanges : List (ℕ × ℕ) := [(65, 90), (97, 122)]

/-- `isCharacter` (source lines 174-177); `codePointAt` is modelled by
`Char.toNat`. -/
def isCharacter (ch : Char) : Bool :=
  CharRanges.any (fun rg => decide (rg.1 ≤ ch.toNat ∧ ch.toNat ≤ rg.2))

/-- `isDigit` (source lines 185-187). -/
def isDigit (ch : Char) : Bool := decide ('0' ≤ ch ∧ ch ≤ '9')

/-- `isCharacterOrNum` (source lines 196-198). -/
def isCharacterOrNum (ch : Char) : Bool := isDigit ch || isCharacter ch

/-- Character at string index `i` (`expr[i]`, `undefined` past the end). -/
def charAt (e : String) (i : ℕ) : Option Char := e.data.get? i

/-- `expr.substring(a, b)` for `a ≤ b`. -/
def subStr (e : String) (a b : ℕ) : String := String.mk ((e.data.drop a).take (b - a))

/-- Number of leading characters of `l` satisfying `p`. -/
def countWhile (p : Char → Bool) : List Char → ℕ
  | [] => 0
  | c :: r => if p c then countWhile p r + 1 else 0

/-- Length scanned by the string-literal loop (source lines 457-461): stops
in front of a closing quote not preceded by a backslash; `prev` is the
previously read character. -/
def strScanLen : Char → List Char → ℕ
  | _, [] => 0
  | prev, c :: r => if c = '\'' ∧ prev ≠ '\\' then 0 else strScanLen c r + 1

/-- The escape processing `replace(/\\([n'])/g, ...)` (source lines 464-469):
`\n` becomes a newline, `\'` a quote, other sequences are left alone. -/
def unescape : List Char → List Char
  | [] => []
  | [c] => [c]
  | c :: d :: r =>
    if c = '\\' then
      if d = 'n' then '\n' :: unescape r
      else if d = '\'' then '\'' :: unescape r
      else c :: unescape (d :: r)
    else c :: unescape (d :: r)

/-- Numeric value of a digit character. -/
def digitVal (c : Char) : ℕ := c.toNat - 48

/-- Value of a decimal digit string. -/
def digitsValC (cs : List Char) : ℕ := cs.foldl (fun a c => 10 * a + digitVal c) 0

/-- Unsigned part of the `parseFloat` model: integer digits, then an optional
`.`-introduced fraction; `none` (NaN) when no digit at all was found. -/
def jpfBody (sgn : ℚ) (cs2 : List Char) : Option ℚ :=
  let ip := cs2.takeWhile isDigit
  let rest := cs2.dropWhile isDigit
  let fp : List Char := if rest.headD ' ' = '.' then rest.tail.takeWhile isDigit else []
  if ip.isEmpty ∧ fp.isEmpty then none
  else some (sgn * ((digitsValC ip : ℚ) + (digitsValC fp : ℚ) / (10 : ℚ) ^ fp.length))

/-- Model of the JS builtin `parseFloat`, restricted to plain decimal input
(optional spaces and sign, digits, optional fraction; exponent forms are not
modelled — the tokens this evaluator produces never contain one).  `none`
models the `NaN` result. -/
def jsParseFloat (cs0 : List Char) : Option ℚ :=
  let cs1 := cs0.dropWhile (fun c => c = ' ')
  let hasMinus := cs1.headD ' ' = '-'
  let hasPlus := cs1.headD ' ' = '+'
  jpfBody (if hasMinus then -1 else 1) (if hasMinus ∨ hasPlus then cs1.tail else cs1)

/-- Decimal rendering of a natural number `m` scaled by `10 ^ k` (digits of
`m` with a decimal point `k` places from the right, zero padded). -/
def decDigitsString (m k : ℕ) : String :=
  let s := Nat.repr m
  let s := String.mk (List.replicate (k + 1 - s.length) '0') ++ s
  if k = 0 then s
  else String.mk (s.data.take (s.length - k)) ++ "." ++ String.mk (s.data.drop (s.length - k))

/-- Model of the JS builtin `Number.prototype.toString` on a rational: the
exact decimal expansion when it terminates (within 40 fractional digits),
rendered without an exponent; other rationals (unreachable from float-exact
inputs) fall back to a fraction rendering. -/
def jsNumToString (q : ℚ) : String :=
  let sign := if q < 0 then "-" else ""
  let aq : ℚ := |q|
  match (List.range 41).find? (fun k => (aq * (10 : ℚ) ^ k).den = 1) with
  | some k => sign ++ decDigitsString (aq * (10 : ℚ) ^ k).num.toNat k
  | none => sign ++ Int.repr aq.num ++ "/" ++ Nat.repr aq.den

-- ------------------------------------------------------------------
-- The lexer (`parser`, source lines 350-496)
-- ------------------------------------------------------------------

/-- `Str2TokenType` (source lines 254-271): single- and two-character
symbols. -/
def Str2TokenType : List Char → TokenType
  | ['['] => .arrayOpen
  | [']'] => .arrayClose
  | ['('] => .paramOpen
  | [')'] => .paramClose
  | ['+'] => .plus
  | ['-'] => .minus
  | ['*'] => .multiply
  | ['/'] => .divide
  | ['%'] => .mod
  | [','] => .comma
  | ['=', '='] => .equal
  | ['!', '='] => .different
  | ['<'] => .lesser
  | ['>'] => .greater
  | ['<', '='] => .lessEqual
  | ['>', '='] => .greaterEqual
  | _ => .none

/-- Token constructor used by `setToken`: type, derived class, string value. -/
def setTok (t : TokenType) (sv : Option String) : Tok :=
  .mk t (Type2Class t) false none sv none none none

/-- Identifier branch of the lexer (source lines 375-436): functions, the
named operators `not`/`and`/`or`, and variable lookup. -/
def identBranch (e : String) (vars : Vars) (pos0 : ℕ) : Except EvalErr (Tok × ℕ) :=
  let idEnd := pos0 + 1 + countWhile isCharacterOrNum (e.data.drop (pos0 + 1))
  let name := subStr e pos0 idEnd
  if charAt e idEnd = some '(' then
    if name = "not" then
      .ok (.mk .logicalNot .logicalUnary false none (some name) none none none, idEnd)
    else
      .ok (.mk .function .function false none (some name) none none none, idEnd + 1)
  else if name = "not" then
    .ok (.mk .logicalNot .logicalUnary false none (some name) none none none, idEnd)
  else if name = "and" then
    .ok (.mk .logicalAnd .binary false none (some name) none none none, idEnd)
  else if name = "or" then
    .ok (.mk .logicalOr .binary false none (some name) none none none, idEnd)
  else
    match vars name with
    | Option.none => .error (.expErr e ("Unknown variable " ++ name))
    | some (.str s) =>
      .ok (.mk .value .value false (some .string) (some s) none none none, idEnd)
    | some (.num q) =>
      .ok (.mk .value .value false (some .number) none (some q) none none, idEnd)
    | some (.arr r) =>
      .ok (.mk .value .value false (some .array) none none (some r) none, idEnd)
    | some (.bool b) =>
      .ok (.mk .value .value false (some .number) none (some (if b then 1 else 0)) none none,
        idEnd)

/-- Number branch of the lexer (source lines 444-453); `pos0` is the token
start (before a possible sign), `pos1` the first digit. -/
def numberBranch (e : String) (pos0 pos1 : ℕ) : Except EvalErr (Tok × ℕ) :=
  let numEnd := pos1 + 1 + countWhile (fun c => isDigit c || c = '.') (e.data.drop (pos1 + 1))
  let sv := subStr e pos0 numEnd
  .ok (.mk .value .value false (some .number) none (jsParseFloat sv.data) none none, numEnd)

/-- String-literal branch of the lexer (source lines 456-473).  Note: when the
input ends before a closing quote, the text up to the end of input becomes the
token (no error is raised). -/
def stringBranch (e : String) (pos0 : ℕ) : Except EvalErr (Tok × ℕ) :=
  let q := pos0 + 1 + strScanLen '\'' (e.data.drop (pos0 + 1))
  let content := unescape ((e.data.drop (pos0 + 1)).take (q - (pos0 + 1)))
  .ok (.mk .value .value false (some .string) (some (String.mk content)) none none none, q + 1)

/-- Symbol branch of the lexer (source lines 476-488): two-character
comparison operators by one-character lookahead, then the static symbol
table; anything unknown is a fatal error. -/
def symbolBranch (e : String) (pos0 : ℕ) (ch : Char) : Except EvalErr (Tok × ℕ) :=
  let twoChar := (ch = '=' ∨ ch = '!' ∨ ch = '<' ∨ ch = '>') ∧ charAt e (pos0 + 1) = some '='
  let opStr : List Char := if twoChar then [ch, '='] else [ch]
  let pos2 := if twoChar then pos0 + 1 else pos0
  match Str2TokenType opStr with
  | .none =>
    .error (.expErr e ("Unknown token " ++ String.mk opStr ++ " in position " ++ Nat.repr pos2))
  | t => .ok (setTok t (some (subStr e pos0 (pos2 + 1))), pos2 + 1)

/-- Final `canBinOp` assignment (source line 494). -/
def finalize (t : Tok) : Tok :=
  t.setCanBinOp (t.tkClass = .unary ∨ t.tkClass = .binary)

/-- The lexer `parser(p, checkSign)` (source lines 350-496): skips spaces and
returns the next token and new position; a token of class `none` signals the
end of the input. -/
def parser (e : String) (vars : Vars) (pos : ℕ) (checkSign : Bool) :
    Except EvalErr (Tok × ℕ) :=
  let pos0 := pos + countWhile (fun c => c = ' ') (e.data.drop pos)
  match charAt e pos0 with
  | Option.none => .ok (defTok, pos0)
  | some ch =>
    let res :=
      if isCharacter ch then identBranch e vars pos0
      else
        let signAdj := checkSign ∧ (ch = '-' ∨ ch = '+') ∧
          ((charAt e (pos0 + 1)).elim false isDigit)
        let pos1 := if signAdj then pos0 + 1 else pos0
        let ch1 := if signAdj then (charAt e pos1).getD ch else ch
        if isDigit ch1 then numberBranch e pos0 pos1
        else if ch1 = '\'' then stringBranch e pos0
        else symbolBranch e pos0 ch1
    match res with
    | .error er => .error er
    | .ok (t, p) => .ok (finalize t, p)

-- ------------------------------------------------------------------
-- Compute (`_calcUnary`, `_calcBinary`, source lines 810-941)
-- ------------------------------------------------------------------

/-- JS truthiness of a numeric field (`undefined`/NaN and `0` are falsy). -/
def truthy : JQ → Bool
  | some q => q ≠ 0
  | Option.none => false

/-- Lift a binary rational operation to `undefined`/NaN propagation. -/
def jlift (f : ℚ → ℚ → ℚ) : JQ → JQ → JQ
  | some a, some b => some (f a b)
  | _, _ => none

/-- Lift a comparison; any comparison against `undefined`/NaN is false. -/
def jcomp (f : ℚ → ℚ → Bool) : JQ → JQ → Bool
  | some a, some b => f a b
  | _, _ => false

/-- Truncation toward zero (the rounding used by the JS `%` operator). -/
def qtrunc (q : ℚ) : ℤ := if 0 ≤ q then ⌊q⌋ else ⌈q⌉

/-- The JS remainder `a % b` (`a - b * trunc(a / b)`); `b = 0` gives NaN in
JS, modelled here as `0`. -/
def jsRem (a b : ℚ) : ℚ := if b = 0 then 0 else a - b * (qtrunc (a / b) : ℚ)

/-- Stand-in for `Msgs.UnaryErr`; the `Msgs` table is defined outside
`src/`. -/
def msgsUnaryErr : String := "UnaryErr"

/-- `_comparePriority` (source lines 810-812). -/
def _comparePriority (op1 op2 : Tok) : Bool :=
  opPriority op1.tkType ≥ opPriority op2.tkType

/-- `_calcUnary` (source lines 819-829): unary minus and logical not; requires
a numeric operand. -/
def _calcUnary (exprS : String) (op value : Tok) : Except EvalErr Tok :=
  if value.paType ≠ some .number then .error (.expErr exprS msgsUnaryErr)
  else if op.tkType = .minus then .ok (value.setNumValue (value.numValue.map (fun q => -q)))
  else if op.tkType = .logicalNot then
    .ok (value.setNumValue (some (if truthy value.numValue then 0 else 1)))
  else .ok value

/-- `execOp` (source lines 849-880).  Returns `(handled, v, value1, heap)`:
two arrays of equal length combine element-wise by mutating the heap cell of
`value1` in place; an array mixed with anything else or mismatched lengths is
fatal; scalars compute `v` unless a non-number appears (then either
`handled = false` when `allowOther`, or a fatal error). -/
def execOp (exprS : String) (f : ℚ → ℚ → ℚ) (allowOther : Bool) (t1 t2 : Tok)
    (heap : Heap) : Except EvalErr (Bool × JQ × Tok × Heap) :=
  let is1 := t1.paType = some .array
  let is2 := t2.paType = some .array
  let anyNotNumber := ¬ (t1.paType = some .number ∧ t2.paType = some .number)
  if is1 ∨ is2 then
    if ¬ (is1 ∧ is2) then .error (.rawErr "Can only add 2 arrays")
    else
      let r1 := t1.arrayValue.getD 0
      let c1 := heap.getD r1 []
      let c2 := heap.getD (t2.arrayValue.getD 0) []
      if c1.length ≠ c2.length then .error (.rawErr "Both arrays must have the same value")
      else .ok (true, none, t1.setPaType (some .array), heap.set r1 (List.zipWith (jlift f) c1 c2))
  else if anyNotNumber then
    if allowOther then .ok (false, none, t1, heap)
    else .error (.expErr exprS "This op only supports numbers")
  else .ok (true, jlift f t1.numValue t2.numValue, t1, heap)

/-- The text a scalar operand contributes to `+` string concatenation
(source lines 886-890): numbers via `toString`, otherwise the string
payload. -/
def scalarText (t : Tok) : String :=
  if t.paType = some .number then
    match t.numValue with
    | some q => jsNumToString q
    | Option.none => "undefined"
  else (t.sValue).getD "undefined"

/-- `NumbersOnly` check of `_calcBinary`. -/
def numbersOnly (exprS : String) (t1 t2 : Tok) : Except EvalErr Unit :=
  if ¬ (t1.paType = some .number ∧ t2.paType = some .number) then
    .error (.expErr exprS "This op only supports numbers")
  else .ok ()

/-- `_calcBinary` (source lines 833-941): computes `value1 op value2`, the
result replacing `value1` (whose heap cell is mutated in place for array
operands). -/
def _calcBinary (exprS : String) (op t1 t2 : Tok) (heap : Heap) :
    Except EvalErr (Tok × Heap) :=
  match op.tkType with
  | .plus => do
    let (handled, v, t1a, heap2) ← execOp exprS (· + ·) true t1 t2 heap
    if handled then .ok (t1a.setNumValue v, heap2)
    else .ok ((t1.setSValue (some (scalarText t1 ++ scalarText t2))).setPaType (some .string),
      heap)
  | .minus => do
    let (_, v, t1a, heap2) ← execOp exprS (· - ·) false t1 t2 heap
    .ok (t1a.setNumValue v, heap2)
  | .multiply => do
    let (_, v, t1a, heap2) ← execOp exprS (· * ·) false t1 t2 heap
    .ok (t1a.setNumValue v, heap2)
  | .divide => do
    let (_, v, t1a, heap2) ← execOp exprS (· / ·) false t1 t2 heap
    .ok (t1a.setNumValue v, heap2)
  | .mod => do
    let (_, v, t1a, heap2) ← execOp exprS jsRem false t1 t2 heap
    .ok (t1a.setNumValue v, heap2)
  | .equal => do
    let _ ← numbersOnly exprS t1 t2
    .ok (t1.setNumValue (some (if t1.numValue = t2.numValue then 1 else 0)), heap)
  | .different => do
    let _ ← numbersOnly exprS t1 t2
    .ok (t1.setNumValue (some (if t1.numValue = t2.numValue then 0 else 1)), heap)
  | .lesser => do
    let _ ← numbersOnly exprS t1 t2
    .ok (t1.setNumValue (some (if jcomp (· < ·) t1.numValue t2.numValue then 1 else 0)), heap)
  | .greater => do
    let _ ← numbersOnly exprS t1 t2
    .ok (t1.setNumValue (some (if jcomp (fun a b => b < a) t1.numValue t2.numValue then 1 else 0)),
      heap)
  | .lessEqual => do
    let _ ← numbersOnly exprS t1 t2
    .ok (t1.setNumValue (some (if jcomp (· ≤ ·) t1.numValue t2.numValue then 1 else 0)), heap)
  | .greaterEqual => do
    let _ ← numbersOnly exprS t1 t2
    .ok (t1.setNumValue (some (if jcomp (fun a b => b ≤ a) t1.numValue t2.numValue then 1 else 0)),
      heap)
  | .logicalAnd => do
    let _ ← numbersOnly exprS t1 t2
    .ok (t1.setNumValue (some (if truthy t1.numValue ∧ truthy t2.numValue then 1 else 0)), heap)
  | .logicalOr => do
    let _ ← numbersOnly exprS t1 t2
    .ok (t1.setNumValue (some (if truthy t1.numValue ∨ truthy t2.numValue then 1 else 0)), heap)
  | _ => .ok (t1.setNumValue none, heap)

-- ------------------------------------------------------------------
-- Function calls and array literals (source lines 502-540)
-- ------------------------------------------------------------------

/-- `_execExprFunction` (source lines 502-520): dispatch to the registry;
the function's payload is copied onto a fresh `Value` token. -/
def _execExprFunction (exprS : String) (reg : Registry) (funcToken : Tok) (heap : Heap) :
    Except EvalErr (Tok × Heap) :=
  let funcName := funcToken.sValue.getD ""
  match reg funcName with
  | Option.none => .error (.expErr exprS ("Unknown function: " ++ funcName))
  | some f => do
    let (rt, heap2) ← f (funcToken.funcParams.getD []) heap
    .ok (.mk .value .value false rt.paType rt.sValue rt.numValue rt.arrayValue none, heap2)

/-- `_execArray` (source lines 526-540): assembles the collected argument
tokens' `numValue`s into a fresh heap cell (a new array object). -/
def _execArray (funcToken : Tok) (heap : Heap) : Tok × Heap :=
  let cell := (funcToken.funcParams.getD []).map (fun t => t.numValue)
  (.mk .value .value false (some .array) none none (some heap.length) none, heap ++ [cell])

-- ------------------------------------------------------------------
-- Stack reduction (`calcStackLeft` / `calcStackRight`, source lines 583-615)
-- ------------------------------------------------------------------

/-- One-sided fuel-indexed form of `calcStackLeft` (source lines 583-596):
collapse `value op value` triples bottom-up starting at `sp`, while the
operator can combine. -/
def calcStackLeftF (exprS : String) : ℕ → List Tok → ℕ → Heap →
    Except EvalErr (List Tok × Heap)
  | 0, stack, _, heap => .ok (stack, heap)
  | fuel + 1, stack, sp, heap =>
    let n := stack.length
    if 2 < n ∧ sp + 2 < n then
      let op := stack.getD (sp + 1) defTok
      if op.canBinOp then
        match _calcBinary exprS op (stack.getD sp defTok) (stack.getD (sp + 2) defTok) heap with
        | .error er => .error er
        | .ok (t1, heap2) =>
          calcStackLeftF exprS fuel ((stack.set sp t1).take (sp + 1) ++ stack.drop (sp + 3))
            sp heap2
      else .ok (stack, heap)
    else .ok (stack, heap)

/-- `calcStackLeft` with fuel `stack.length` (each step removes two
entries). -/
def calcStackLeft (exprS : String) (stack : List Tok) (sp : ℕ) (heap : Heap) :
    Except EvalErr (List Tok × Heap) :=
  calcStackLeftF exprS stack.length stack sp heap

/-- Fuel-indexed form of `calcStackRight` (source lines 598-615): collapse the
topmost `value op value` triple while the operator immediately below has no
higher priority. -/
def calcStackRightF (exprS : String) : ℕ → List Tok → Heap →
    Except EvalErr (List Tok × Heap)
  | 0, stack, heap => .ok (stack, heap)
  | fuel + 1, stack, heap =>
    let n := stack.length
    if 3 < n then
      let op := stack.getD (n - 2) defTok
      if op.canBinOp then
        if _comparePriority op (stack.getD (n - 4) defTok) then
          match _calcBinary exprS op (stack.getD (n - 3) defTok) (stack.getD (n - 1) defTok)
              heap with
          | .error er => .error er
          | .ok (t1, heap2) => calcStackRightF exprS fuel ((stack.set (n - 3) t1).take (n - 2))
              heap2
        else .ok (stack, heap)
      else .ok (stack, heap)
    else .ok (stack, heap)

/-- `calcStackRight` with fuel `stack.length`. -/
def calcStackRight (exprS : String) (stack : List Tok) (heap : Heap) :
    Except EvalErr (List Tok × Heap) :=
  calcStackRightF exprS stack.length stack heap

-- ------------------------------------------------------------------
-- The state machine (source lines 547-765)
-- ------------------------------------------------------------------

/-- The three parsing states (source lines 549-553). -/
inductive SMSt
  | idAndUnary
  | noUnary
  | binary
  deriving DecidableEq, Repr

/-- The mutable state of one `_stateMachine` run: parse state, evaluation
stack (bottom first), start points (innermost first) and the heap. -/
structure StepSt where
  state : SMSt
  stack : List Tok
  sps : List ℕ
  heap : Heap

/-- `_valueOfToken` (source lines 768-771), dereferencing array results. -/
def _valueOfToken (tok : Tok) (heap : Heap) : ExprResult :=
  if tok.paType = some .string then
    match tok.sValue with
    | some s => .str s
    | Option.none => .undef
  else if tok.paType = some .array then
    match tok.arrayValue with
    | some r => .arr (heap.getD r [])
    | Option.none => .undef
  else
    match tok.numValue with
    | Option.none => .undef
    | some q => .num q

/-- Handling of a `Value` token (source lines 637-652): illegal after a value;
an immediately preceding pending unary operator is applied now; then push and
right-reduce. -/
def stepValue (exprS : String) (tok : Tok) (s : StepSt) : Except EvalErr StepSt := do
  if s.state = .binary then .error (.expErr exprS "")
  else
    let n := s.stack.length
    let top := s.stack.getD (n - 1) defTok
    let doUnary := s.state = .noUnary ∧ (top.tkClass = .unary ∨ top.tkClass = .logicalUnary) ∧
      (n = 1 ∨ (s.stack.getD (n - 2) defTok).tkClass ≠ .value)
    let (stack1, tok1) ←
      if doUnary then do
        let tokU ← _calcUnary exprS top tok
        pure (s.stack.take (n - 1), tokU)
      else pure (s.stack, tok)
    let (stack2, heap2) ← calcStackRight exprS (stack1 ++ [tok1]) s.heap
    .ok ⟨.binary, stack2, s.sps, heap2⟩

/-- Handling of open-group tokens (source lines 654-665): push, record a new
start point. -/
def stepOpen (exprS : String) (tok : Tok) (s : StepSt) : Except EvalErr StepSt :=
  if s.state = .binary then .error (.expErr exprS "")
  else
    let tok1 := if tok.tkClass = .paramOpen then tok else tok.setFuncParams (some [])
    let stack1 := s.stack ++ [tok1]
    .ok ⟨.idAndUnary, stack1, stack1.length :: s.sps, s.heap⟩

/-- `onCloseParamOrArrayOrFunc` (source lines 617-624): left-reduce the open
group to a single token and pop it. -/
def onCloseGroup (exprS : String) (stack : List Tok) (sp : ℕ) (heap : Heap) :
    Except EvalErr (List Tok × Tok × Heap) := do
  let (stack1, heap1) ← calcStackLeft exprS stack sp heap
  if sp ≠ stack1.length - 1 then .error (.expErr exprS "")
  else
    .ok (stack1.take (stack1.length - 1), stack1.getD (stack1.length - 1) defTok, heap1)

/-- Handling of `,`, `)`, `]` (source lines 667-713): reduce the group;
dispatch function calls and assemble array literals on close; commas append
to the pending argument list. -/
def stepClose (exprS : String) (reg : Registry) (tok : Tok) (s : StepSt) :
    Except EvalErr StepSt := do
  let sp := s.sps.headD 0
  if sp = 0 then .error (.expErr exprS "Missing starting parenthesis")
  else
    let funcToken := s.stack.getD (sp - 1) defTok
    let isTokenComma := tok.tkClass = .comma
    let isFunc := funcToken.tkClass = .function
    let isArray := funcToken.tkClass = .arrayOpen
    if isTokenComma ∧ ¬ isFunc ∧ ¬ isArray then .error (.expErr exprS "Missing function")
    else if (isFunc ∨ isArray) ∧ ¬ isTokenComma then do
      let (stackP, funcT2, heap2) ←
        if sp ≠ s.stack.length then do
          let (stackA, argTok, heapA) ← onCloseGroup exprS s.stack sp s.heap
          pure (stackA.set (sp - 1) (funcToken.pushParam argTok), funcToken.pushParam argTok,
            heapA)
        else pure (s.stack, funcToken, s.heap)
      let (resTok, heap3) ←
        if isFunc then _execExprFunction exprS reg funcT2 heap2
        else pure (_execArray funcT2 heap2)
      .ok ⟨.binary, stackP.set (stackP.length - 1) resTok, s.sps.tail, heap3⟩
    else do
      let (stackA, argTok, heapA) ← onCloseGroup exprS s.stack sp s.heap
      if ¬ isTokenComma then
        .ok ⟨.binary, stackA.set (stackA.length - 1) argTok, s.sps.tail, heapA⟩
      else
        .ok ⟨.idAndUnary, stackA.set (sp - 1) (funcToken.pushParam argTok), s.sps, heapA⟩

/-- Handling of a binary-operator token (source lines 725-737): left-reduce
first when the pending operator has no lower priority, then push. -/
def stepBinary (exprS : String) (tok : Tok) (s : StepSt) : Except EvalErr StepSt := do
  if s.state ≠ .binary then .error (.expErr exprS "")
  else
    let n := s.stack.length
    let (stack1, heap1) ←
      if 1 < n ∧ (s.stack.getD (n - 1) defTok).tkClass = .value then
        let op := s.stack.getD (n - 2) defTok
        if op.canBinOp ∧ _comparePriority op tok then
          calcStackLeft exprS s.stack (s.sps.headD 0) s.heap
        else pure (s.stack, s.heap)
      else pure (s.stack, s.heap)
    .ok ⟨.noUnary, stack1 ++ [tok], s.sps, heap1⟩

/-- One transition of the state machine on a non-end token (source lines
636-738). -/
def step (exprS : String) (reg : Registry) (tok : Tok) (s : StepSt) : Except EvalErr StepSt :=
  match tok.tkClass with
  | .value => stepValue exprS tok s
  | .arrayOpen => stepOpen exprS tok s
  | .function => stepOpen exprS tok s
  | .paramOpen => stepOpen exprS tok s
  | .comma => stepClose exprS reg tok s
  | .paramClose => stepClose exprS reg tok s
  | .arrayClose => stepClose exprS reg tok s
  | .logicalUnary =>
    if s.state = .idAndUnary then .ok ⟨s.state, s.stack ++ [tok], s.sps, s.heap⟩
    else stepBinary exprS tok s
  | .unary =>
    if s.state = .idAndUnary then .ok ⟨.noUnary, s.stack ++ [tok], s.sps, s.heap⟩
    else stepBinary exprS tok s
  | .binary => stepBinary exprS tok s
  | _ => .ok s

/-- End-of-input processing (source lines 740-764): a final left reduction,
then the stack must hold exactly one `Value` token, which is unwrapped. -/
def finishRun (exprS : String) (s : StepSt) : Except EvalErr (ExprResult × Heap) := do
  let (stack1, heap1) ← calcStackLeft exprS s.stack (s.sps.headD 0) s.heap
  if stack1.length ≠ 1 then .error (.expErr exprS "Stack not empty")
  else
    let tok := stack1.getD 0 defTok
    if tok.tkClass ≠ .value then .error (.expErr exprS "Not a value")
    else .ok (_valueOfToken tok heap1, heap1)

/-- The fuel-indexed main loop of `_stateMachine` (source lines 627-739):
pull a token, stop on class `none`, otherwise apply `step`.  `none` is
returned only on fuel exhaustion, which `c9_termination` proves cannot
happen at fuel `expr.length + 1`. -/
def smLoop (e : String) (vars : Vars) (reg : Registry) :
    ℕ → ℕ → StepSt → Option (Except EvalErr (ExprResult × Heap))
  | 0, _, _ => none
  | fuel + 1, pos, s =>
    match parser e vars pos (decide (s.state ≠ .binary)) with
    | .error er => some (.error er)
    | .ok (tok, pos2) =>
      if tok.tkClass = .none then some (finishRun e s)
      else
        match step e reg tok s with
        | .error er => some (.error er)
        | .ok s2 => smLoop e vars reg fuel pos2 s2

/-- `_stateMachine` run from position 1 (after the leading `=`), with fuel
`expr.length + 1`. -/
def _stateMachine (e : String) (vars : Vars) (reg : Registry) (heap : Heap) :
    Option (Except EvalErr (ExprResult × Heap)) :=
  smLoop e vars reg (e.length + 1) 1 ⟨.idAndUnary, [], [], heap⟩

/-- `calcExpr` (source lines 952-960) with the heap made explicit. -/
def calcExprH (e : String) (vars : Vars) (reg : Registry) (heap : Heap) :
    Option (Except EvalErr (ExprResult × Heap)) :=
  _stateMachine e vars reg heap

/-- `calcExpr` on an empty initial heap, returning just the result.  The
`fuel exhausted` arm is unreachable (theorem `c9_termination`). -/
def calcExpr (e : String) (vars : Vars) (reg : Registry) : Except EvalErr ExprResult :=
  match calcExprH e vars reg [] with
  | some (.ok (r, _)) => .ok r
  | some (.error er) => .error er
  | Option.none => .error (.rawErr "fuel exhausted")

-- ------------------------------------------------------------------
-- Public wrappers (source lines 205-207, 952-1008)
-- ------------------------------------------------------------------

/-- `isExpr` (source lines 205-207). -/
def isExpr (text : String) : Bool := charAt text 0 = some '='

/-- `ifExprCalc` (source lines 968-972). -/
def ifExprCalc (e : String) (vars : Vars) (reg : Registry) :
    Except EvalErr (Option ExprResult) :=
  if isExpr e then (calcExpr e vars reg).map some else .ok none

/-- A JS `number | undefined` return value: `undefined`, NaN, or a number. -/
inductive NumRes
  | undef
  | nan
  | val (q : ℚ)
  deriving DecidableEq, Repr

/-- Model of the string JS produces when an `ExprResult` is passed to
`parseFloat` (numbers and arrays via their `toString`). -/
def jsResultToArgString : ExprResult → String
  | .undef => "undefined"
  | .num q => jsNumToString q
  | .str s => s
  | .arr xs =>
    String.intercalate "," (xs.map (fun x => match x with
      | some q => jsNumToString q
      | Option.none => ""))

/-- `ifExprCalcNum` (source lines 980-990): strict mode rejects non-numeric
results; otherwise the result is coerced with `parseFloat`; the default is
used only when the input is not an expression (or the result is
`undefined`). -/
def ifExprCalcNum (e : String) (defNumber : Option ℚ) (vars : Vars) (reg : Registry)
    (isStrict : Bool) : Except EvalErr NumRes :=
  if ¬ isExpr e then
    .ok (match defNumber with
      | some d => .val d
      | Option.none => .undef)
  else do
    let exprValue ← calcExpr e vars reg
    let isNum := match exprValue with
      | .num _ => true
      | _ => false
    if isStrict && decide (exprValue ≠ ExprResult.undef) && !isNum then
      .error (.mustBeANumber e)
    else if exprValue ≠ ExprResult.undef then
      .ok (match jsParseFloat (jsResultToArgString exprValue).data with
        | some q => .val q
        | Option.none => .nan)
    else
      .ok (match defNumber with
        | some d => .val d
        | Option.none => .undef)

/-- The default global variables `_vars` (source lines 147-152); the float
constants `Math.E` and `Math.PI` are modelled by their shortest decimal
forms. -/
def _vars : Vars := fun name =>
  if name = "e" then some (.num (2718281828459045 / 1000000000000000))
  else if name = "pi" then some (.num (3141592653589793 / 1000000000000000))
  else if name = "deg2rad" then some (.num (3141592653589793 / 1000000000000000 / 180))
  else if name = "rad2deg" then some (.num (180 / (3141592653589793 / 1000000000000000)))
  else none

-- ------------------------------------------------------------------
-- Plain decimal numerals (reference model for the round-trip claim)
-- ------------------------------------------------------------------

/-- The decimal digit character for `d < 10`. -/
def digitChar : ℕ → Char
  | 0 => '0'
  | 1 => '1'
  | 2 => '2'
  | 3 => '3'
  | 4 => '4'
  | 5 => '5'
  | 6 => '6'
  | 7 => '7'
  | 8 => '8'
  | _ => '9'

/-- Modelled from the spec: the plain decimal string form of a JS number as
produced by `Number.prototype.toString` when no exponent is used — an
optional minus sign, at least one integer digit, and an optional fraction. -/
def decRender (neg : Bool) (ds fs : List ℕ) : String :=
  String.mk ((if neg then ['-'] else []) ++ ds.map digitChar ++
    (if fs = [] then [] else '.' :: fs.map digitChar))

/-- Natural value of a list of decimal digits. -/
def digitsVal (ds : List ℕ) : ℕ := ds.foldl (fun a d => 10 * a + d) 0

/-- The rational value denoted by a plain decimal numeral. -/
def decValue (neg : Bool) (ds fs : List ℕ) : ℚ :=
  (if neg then -1 else 1) *
    ((digitsVal ds : ℚ) + (digitsVal fs : ℚ) / (10 : ℚ) ^ fs.length)

/-- The scalar function `execOp` receives for each of the five element-wise
arithmetic operators (source lines 904-931). -/
def arithOpFun : TokenType → ℚ → ℚ → ℚ
  | .plus => (· + ·)
  | .minus => (· - ·)
  | .multiply => (· * ·)
  | .divide => (· / ·)
  | .mod => jsRem
  | _ => fun _ _ => 0

/-- Observable fields of a token (all but `funcParams`), for stating lexer
facts with decidable equality. -/
structure TokView where
  tkType : TokenType
  tkClass : TokenClass
  canBinOp : Bool
  paType : Option PaType
  sValue : Option String
  numValue : JQ
  arrayValue : Option ℕ
  deriving DecidableEq, Repr

/-- The view of a token. -/
def Tok.view (t : Tok) : TokView :=
  ⟨t.tkType, t.tkClass, t.canBinOp, t.paType, t.sValue, t.numValue, t.arrayValue⟩

-- ------------------------------------------------------------------
-- Proof support
-- ------------------------------------------------------------------

deriving instance DecidableEq for Except

set_option allowUnsafeReducibility true
attribute [local semireducible] Rat.add Rat.mul Rat.sub Rat.inv Rat.ofScientific

theorem countWhile_le_length (p : Char → Bool) (l : List Char) : countWhile p l ≤ l.length := by
  induction l with
  | nil => simp [countWhile]
  | cons c r ih =>
    simp only [countWhile, List.length_cons]
    split <;> omega

theorem strScanLen_le_length (prev : Char) (l : List Char) :
    strScanLen prev l ≤ l.length := by
  induction l generalizing prev with
  | nil => simp [strScanLen]
  | cons c r ih =>
    simp only [strScanLen, List.length_cons]
    split
    · omega
    · exact Nat.succ_le_succ (ih c)

theorem charAt_some_lt {e : String} {i : ℕ} {c : Char} (h : charAt e i = some c) :
    i < e.length := by
  obtain ⟨hlt, -⟩ := List.get?_eq_some.mp h
  exact hlt
theorem identBranch_advance {e : String} {vars : Vars} {pos0 : ℕ} {tok : Tok} {pos2 : ℕ}
    (h : identBranch e vars pos0 = .ok (tok, pos2)) (hp : pos0 < e.length) :
    pos0 < pos2 ∧ pos2 ≤ e.length := by
  have hcw := countWhile_le_length isCharacterOrNum (e.data.drop (pos0 + 1))
  have hdl : (e.data.drop (pos0 + 1)).length = e.length - (pos0 + 1) := by
    rw [List.length_drop]; rfl
  rw [hdl] at hcw
  simp only [identBranch] at h
  split at h
  · split at h
    · simp only [Except.ok.injEq, Prod.mk.injEq] at h
      omega
    · rename_i hpar _
      have := charAt_some_lt hpar
      simp only [Except.ok.injEq, Prod.mk.injEq] at h
      omega
  · split at h
    · simp only [Except.ok.injEq, Prod.mk.injEq] at h
      omega
    · split at h
      · simp only [Except.ok.injEq, Prod.mk.injEq] at h
        omega
      · split at h
        · simp only [Except.ok.injEq, Prod.mk.injEq] at h
          omega
        · split at h <;>
            first
            | exact Except.noConfusion h
            | (simp only [Except.ok.injEq, Prod.mk.injEq] at h; omega)

theorem numberBranch_advance {e : String} {pos0 pos1 : ℕ} {tok : Tok} {pos2 : ℕ}
    (h : numberBranch e pos0 pos1 = .ok (tok, pos2)) (hp : pos1 < e.length) :
    pos1 < pos2 ∧ pos2 ≤ e.length := by
  have hcw := countWhile_le_length (fun c => isDigit c || c = '.') (e.data.drop (pos1 + 1))
  have hdl : (e.data.drop (pos1 + 1)).length = e.length - (pos1 + 1) := by
    rw [List.length_drop]; rfl
  rw [hdl] at hcw
  simp only [numberBranch] at h
  simp only [Except.ok.injEq, Prod.mk.injEq] at h
  omega

theorem stringBranch_advance {e : String} {pos0 : ℕ} {tok : Tok} {pos2 : ℕ}
    (h : stringBranch e pos0 = .ok (tok, pos2)) (hp : pos0 < e.length) :
    pos0 < pos2 ∧ pos2 ≤ e.length + 1 := by
  have hcw := strScanLen_le_length '\'' (e.data.drop (pos0 + 1))
  have hdl : (e.data.drop (pos0 + 1)).length = e.length - (pos0 + 1) := by
    rw [List.length_drop]; rfl
  rw [hdl] at hcw
  simp only [stringBranch] at h
  simp only [Except.ok.injEq, Prod.mk.injEq] at h
  omega

theorem symbolBranch_advance {e : String} {pos0 : ℕ} {ch : Char} {tok : Tok} {pos2 : ℕ}
    (h : symbolBranch e pos0 ch = .ok (tok, pos2)) (hp : pos0 < e.length) :
    pos0 < pos2 ∧ pos2 ≤ e.length := by
  simp only [symbolBranch] at h
  by_cases htwo : ((ch = '=' ∨ ch = '!' ∨ ch = '<' ∨ ch = '>') ∧ charAt e (pos0 + 1) = some '=')
  · have h1 := charAt_some_lt htwo.2
    simp only [if_pos htwo] at h
    split at h
    · exact Except.noConfusion h
    · simp only [Except.ok.injEq, Prod.mk.injEq] at h
      omega
  · simp only [if_neg htwo] at h
    split at h
    · exact Except.noConfusion h
    · simp only [Except.ok.injEq, Prod.mk.injEq] at h
      omega

theorem elim_isDigit_some {o : Option Char} (h : o.elim false isDigit = true) :
    ∃ c, o = some c ∧ isDigit c = true := by
  cases o with
  | none => simp [Option.elim] at h
  | some c => exact ⟨c, rfl, h⟩

theorem parser_advance {e : String} {vars : Vars} {pos : ℕ} {cs : Bool} {tok : Tok}
    {pos2 : ℕ} (h : parser e vars pos cs = .ok (tok, pos2)) (hc : tok.tkClass ≠ .none) :
    pos < pos2 ∧ pos2 ≤ e.length + 1 := by
  simp only [parser] at h
  split at h
  · simp only [Except.ok.injEq, Prod.mk.injEq] at h
    rw [← h.1] at hc
    exact absurd rfl hc
  · rename_i ch hch
    have hpos0 := charAt_some_lt hch
    split at h
    · exact Except.noConfusion h
    · rename_i t p heq
      simp only [Except.ok.injEq, Prod.mk.injEq] at h
      obtain ⟨-, rfl⟩ := h
      split at heq
      · have := identBranch_advance heq hpos0
        omega
      · by_cases hadj : (cs = true ∧ (ch = '-' ∨ ch = '+') ∧
            ((charAt e (pos + countWhile (fun c => c = ' ') (e.data.drop pos) + 1)).elim
              false isDigit) = true)
        · obtain ⟨c1, hc1, hd1⟩ := elim_isDigit_some hadj.2.2
          have hlt := charAt_some_lt hc1
          simp only [if_pos hadj] at heq
          simp only [hc1, Option.getD_some] at heq
          rw [if_pos hd1] at heq
          have := numberBranch_advance heq (by omega)
          omega
        · simp only [if_neg hadj] at heq
          split at heq
          · have := numberBranch_advance heq hpos0
            omega
          · split at heq
            · have := stringBranch_advance heq hpos0
              omega
            · have := symbolBranch_advance heq hpos0
              omega

theorem smLoop_ne_none (e : String) (vars : Vars) (reg : Registry) :
    ∀ (fuel pos : ℕ) (s : StepSt), pos ≤ e.length + 1 → e.length + 2 - pos ≤ fuel →
      smLoop e vars reg fuel pos s ≠ none := by
  intro fuel
  induction fuel with
  | zero => intro pos s h1 h2; omega
  | succ f ih =>
    intro pos s h1 h2
    simp only [smLoop]
    split
    · simp
    · rename_i tok pos2 hp
      split
      · simp
      · rename_i hcls
        split
        · simp
        · rename_i s2 hstep
          have hadv := parser_advance hp hcls
          exact ih pos2 s2 (by omega) (by omega)

-- ------------------------------------------------------------------
-- Claim theorems
-- ------------------------------------------------------------------

/-- C9: for every expression string, variable context, heap and registry of
(total, hence terminating) functions, the evaluator run with fuel
`length + 1` completes: it returns a result or an error, never hitting the
fuel bound — because every lexer call that yields a token consumes at least
one character. -/
theorem c9_termination (e : String) (vars : Vars) (reg : Registry) (heap : Heap) :
    ∃ r, calcExprH e vars reg heap = some r := by
  have h := smLoop_ne_none e vars reg (e.length + 1) 1 ⟨.idAndUnary, [], [], heap⟩
    (by omega) (by omega)
  cases hx : smLoop e vars reg (e.length + 1) 1 ⟨.idAndUnary, [], [], heap⟩ with
  | none => exact absurd hx h
  | some r => exact ⟨r, by simpa [calcExprH, _stateMachine] using hx⟩

/-- C1: the claimed standard-precedence property fails on the code.  On
`=14 == 2 + 3 * 4` standard precedence gives `14 == (2 + (3 * 4))`, i.e.
`14 == 14`, i.e. `1`; the evaluator returns `0` because `calcStackRight`
reduces `2 + 3` prematurely (it compares the top operator's priority with the
operator *below* it on the stack instead of the *next incoming* operator).
The second conjunct records that the arithmetic sub-expression indeed equals
14 under standard precedence. -/
theorem c1_precedence_failing_input :
    calcExpr "=14 == 2 + 3 * 4" noVars emptyRegistry = .ok (.num 0) ∧
    (2 + 3 * 4 : ℚ) = 14 := ⟨by decide, by decide⟩

/-- C2: logical not is unimplemented end to end (the source carries a
`@TODO: Implement logical Not` comment): evaluating `=not(0)` throws
`Stack not empty` instead of returning `1`.  The second conjunct shows that
`_calcUnary` itself would flip `0` to `1` — the state machine just never
applies it on this path. -/
theorem c2_not_failing_input :
    calcExpr "=not(0)" noVars emptyRegistry =
      .error (.expErr "=not(0)" "Stack not empty") ∧
    (_calcUnary "=not(0)" (setTok .logicalNot none)
        (Tok.mk .value .value false (some .number) none (some 0) none none)).map
      Tok.numValue = .ok (some 1) ∧
    (_calcUnary "=not(0)" (setTok .logicalNot none)
        (Tok.mk .value .value false (some .number) none (some 7) none none)).map
      Tok.numValue = .ok (some 0) := ⟨by decide, by decide, by decide⟩

/-- C8: `=-5 * -3` evaluates to `15`; with `expectUnarySign` (the previous
token cannot be a left operand) the lexer absorbs `-5` into one numeric
literal ending at position 3, while without it the same text lexes as a
one-character `-` operator token of class `Unary`. -/
theorem c8_unary_sign :
    calcExpr "=-5 * -3" noVars emptyRegistry = .ok (.num 15) ∧
    (parser "=-5 * -3" noVars 1 true).map (fun tp => (tp.1.view, tp.2)) =
      .ok (⟨.value, .value, false, some .number, none, some (-5), none⟩, 3) ∧
    (parser "=-5 * -3" noVars 1 false).map (fun tp => (tp.1.view, tp.2)) =
      .ok (⟨.minus, .unary, true, none, some "-", none, none⟩, 2) :=
  ⟨by decide, by decide, by decide⟩

theorem strScanLen_no_quote {s : List Char} (hq : '\'' ∉ s) (prev : Char) :
    strScanLen prev s = s.length := by
  induction s generalizing prev with
  | nil => simp [strScanLen]
  | cons c r ih =>
    have hc : c ≠ '\'' := fun h => hq (h ▸ List.mem_cons_self c r)
    simp only [strScanLen, List.length_cons]
    rw [if_neg (by simp [hc])]
    simp [ih (fun h => hq (List.mem_cons_of_mem c h)) c]

theorem unescape_no_backslash {s : List Char} (hb : '\\' ∉ s) : unescape s = s := by
  induction s with
  | nil => rfl
  | cons c r ih =>
    have hc : c ≠ '\\' := fun h => hb (h ▸ List.mem_cons_self c r)
    have hr : '\\' ∉ r := fun h => hb (List.mem_cons_of_mem c h)
    cases r with
    | nil => simp [unescape]
    | cons d r2 =>
      simp only [unescape]
      rw [if_neg hc]
      simpa using ih hr

theorem singleValue_run (e : String) (vars : Vars) (reg : Registry) (heap : Heap)
    (tok : Tok) (p1 : ℕ)
    (h1 : parser e vars 1 true = .ok (tok, p1))
    (hcls : tok.tkClass = .value)
    (h2 : ∃ t2 p2, parser e vars p1 false = .ok (t2, p2) ∧ t2.tkClass = .none) :
    calcExprH e vars reg heap = some (.ok (_valueOfToken tok heap, heap)) := by
  obtain ⟨t2, p2, h2, h2c⟩ := h2
  have hadv := parser_advance h1 (by simp [hcls])
  obtain ⟨n, hn⟩ : ∃ n, e.length = n + 1 := ⟨e.length - 1, by omega⟩
  show smLoop e vars reg (e.length + 1) 1 ⟨.idAndUnary, [], [], heap⟩ = _
  rw [hn]
  show smLoop e vars reg (n + 1 + 1) 1 ⟨.idAndUnary, [], [], heap⟩ = _
  simp only [smLoop]
  have hd1 : decide (SMSt.idAndUnary ≠ SMSt.binary) = true := by decide
  rw [hd1] at *
  rw [h1]
  simp only [hcls]
  rw [if_neg (by decide)]
  have hstep : step e reg tok ⟨.idAndUnary, [], [], heap⟩ =
      .ok ⟨.binary, [tok], [], heap⟩ := by
    simp only [step, hcls, stepValue]
    rw [if_neg (by decide)]
    simp [calcStackRight, calcStackRightF, Bind.bind, Except.bind, Pure.pure, Except.pure]
  rw [hstep]
  simp only [smLoop]
  have hd2 : decide (SMSt.binary ≠ SMSt.binary) = false := by decide
  rw [hd2, h2]
  simp only [h2c, reduceIte]
  simp [finishRun, calcStackLeft, calcStackLeftF, hcls, Bind.bind, Except.bind, Pure.pure, Except.pure]

theorem c3_parser_string (s : List Char) (hq : '\'' ∉ s) (hb : '\\' ∉ s) (vars : Vars) :
    parser ("='" ++ String.mk s) vars 1 true =
      .ok (Tok.mk .value .value false (some .string) (some (String.mk s)) none none none,
        s.length + 3) ∧
    parser ("='" ++ String.mk s) vars (s.length + 3) false =
      .ok (defTok, s.length + 3) := by
  have hdata : ("='" ++ String.mk s).data = '=' :: '\'' :: s := by
    rw [String.data_append]; rfl
  have hch : charAt ("='" ++ String.mk s) (1 + 0) = some '\'' := by
    show (("='" ++ String.mk s).data).get? (1 + 0) = some '\''
    rw [hdata]; rfl
  constructor
  · simp only [parser, hdata, List.drop_succ_cons, List.drop_zero]
    have hcw : countWhile (fun c => c = ' ') ('\'' :: s) = 0 := by
      simp [countWhile]
    rw [hcw, hch]
    simp only [stringBranch, hdata, List.drop_succ_cons, List.drop_zero]
    rw [strScanLen_no_quote hq '\'']
    have htake : s.take (1 + 0 + 1 + s.length - (1 + 0 + 1)) = s := by
      simp
    rw [htake, unescape_no_backslash hb]
    have h3 : (1 + 0 + 1 + s.length + 1) = s.length + 3 := by omega
    rw [h3]
    simp +decide [isCharacter, CharRanges, isDigit, finalize, Tok.setCanBinOp, Tok.tkClass]
  · simp only [parser, hdata]
    have hdrop : ('=' :: '\'' :: s).drop (s.length + 3) = [] := by
      apply List.drop_eq_nil_of_le
      simp
    rw [hdrop]
    have hcw : countWhile (fun c => c = ' ') ([] : List Char) = 0 := rfl
    rw [hcw]
    have hch2 : charAt ("='" ++ String.mk s) (s.length + 3 + 0) = none := by
      show (("='" ++ String.mk s).data).get? (s.length + 3 + 0) = none
      rw [hdata]
      apply List.get?_eq_none.mpr
      simp
    simp only [hdata] at hch2
    rw [hch2]

/-- C3 (counterexample): evaluating `='abc`, whose string literal is never
closed, does not raise an error — it returns the string `"abc"`. -/
theorem c3_unterminated_counterexample :
    calcExpr "='abc" noVars emptyRegistry = .ok (.str "abc") := by decide

/-- C3 (amended): for every expression `='` followed by quote-free,
backslash-free text `s`, the lexer treats end of input as the string
terminator and evaluation returns the text, rather than raising a fatal
error. -/
theorem c3_unterminated_amended (s : List Char) (hq : '\'' ∉ s) (hb : '\\' ∉ s)
    (vars : Vars) (reg : Registry) :
    calcExpr ("='" ++ String.mk s) vars reg = .ok (.str (String.mk s)) := by
  obtain ⟨hp1, hp2⟩ := c3_parser_string s hq hb vars
  have hrun := singleValue_run ("='" ++ String.mk s) vars reg [] _ _ hp1 rfl
    ⟨_, _, hp2, rfl⟩
  unfold calcExpr
  rw [hrun]
  rfl

/-- C3 (witness): the amended statement applied to the text `abc`. -/
theorem c3_unterminated_witness :
    calcExpr ("='" ++ String.mk "abc".data) noVars emptyRegistry = .ok (.str "abc") :=
  c3_unterminated_amended "abc".data (by decide) (by decide) noVars emptyRegistry

theorem digitChar_facts {d : ℕ} (h : d < 10) :
    isDigit (digitChar d) = true ∧ isCharacter (digitChar d) = false ∧
    digitVal (digitChar d) = d ∧ (digitChar d = ' ') = False ∧
    (digitChar d = '-') = False ∧ (digitChar d = '+') = False ∧
    (digitChar d = '.') = False ∧ (digitChar d = '\'') = False := by
  interval_cases d <;> refine ⟨by decide, by decide, by decide, by decide, by decide,
    by decide, by decide, by decide⟩

theorem countWhile_all {p : Char → Bool} {l : List Char} (h : ∀ c ∈ l, p c = true) :
    countWhile p l = l.length := by
  induction l with
  | nil => rfl
  | cons c r ih =>
    simp only [countWhile, List.length_cons]
    rw [if_pos (h c (List.mem_cons_self c r))]
    rw [ih (fun x hx => h x (List.mem_cons_of_mem c hx))]

theorem countWhile_append_all {p : Char → Bool} {l r : List Char}
    (h : ∀ c ∈ l, p c = true) :
    countWhile p (l ++ r) = l.length + countWhile p r := by
  induction l with
  | nil => simp
  | cons c t ih =>
    simp only [List.cons_append, countWhile, List.length_cons]
    rw [if_pos (h c (List.mem_cons_self c t))]
    show countWhile p (t ++ r) + 1 = t.length + 1 + countWhile p r
    rw [ih (fun x hx => h x (List.mem_cons_of_mem c hx))]
    omega

theorem takeWhile_append_all {p : Char → Bool} {l r : List Char}
    (h : ∀ c ∈ l, p c = true) :
    (l ++ r).takeWhile p = l ++ r.takeWhile p := by
  induction l with
  | nil => simp
  | cons c t ih =>
    simp only [List.cons_append, List.takeWhile_cons]
    rw [h c (List.mem_cons_self c t)]
    simp [ih (fun x hx => h x (List.mem_cons_of_mem c hx))]

theorem dropWhile_append_all {p : Char → Bool} {l r : List Char}
    (h : ∀ c ∈ l, p c = true) :
    (l ++ r).dropWhile p = r.dropWhile p := by
  induction l with
  | nil => simp
  | cons c t ih =>
    simp only [List.cons_append, List.dropWhile_cons]
    rw [h c (List.mem_cons_self c t)]
    simp [ih (fun x hx => h x (List.mem_cons_of_mem c hx))]

theorem foldl_digitChar (ds : List ℕ) (hd : ∀ d ∈ ds, d < 10) :
    ∀ a : ℕ, ds.foldl (fun x d => 10 * x + digitVal (digitChar d)) a =
      ds.foldl (fun x d => 10 * x + d) a := by
  induction ds with
  | nil => intro a; rfl
  | cons d r ih =>
    intro a
    simp only [List.foldl_cons]
    rw [(digitChar_facts (hd d (List.mem_cons_self d r))).2.2.1]
    exact ih (fun x hx => hd x (List.mem_cons_of_mem d hx)) _

theorem digitsValC_map (ds : List ℕ) (hd : ∀ d ∈ ds, d < 10) :
    digitsValC (ds.map digitChar) = digitsVal ds := by
  unfold digitsValC digitsVal
  rw [List.foldl_map]
  exact foldl_digitChar ds hd 0

theorem takeWhile_all {p : Char → Bool} {l : List Char} (h : ∀ c ∈ l, p c = true) :
    l.takeWhile p = l := by
  induction l with
  | nil => rfl
  | cons c t ih =>
    simp only [List.takeWhile_cons]
    rw [h c (List.mem_cons_self c t)]
    simp [ih (fun x hx => h x (List.mem_cons_of_mem c hx))]

theorem dropWhile_all {p : Char → Bool} {l : List Char} (h : ∀ c ∈ l, p c = true) :
    l.dropWhile p = [] := by
  induction l with
  | nil => rfl
  | cons c t ih =>
    simp only [List.dropWhile_cons]
    rw [h c (List.mem_cons_self c t)]
    simp [ih (fun x hx => h x (List.mem_cons_of_mem c hx))]

theorem digitsValC_cons_map (d0 : ℕ) (ds2 : List ℕ) (hd : ∀ d ∈ d0 :: ds2, d < 10) :
    digitsValC (digitChar d0 :: ds2.map digitChar) = digitsVal (d0 :: ds2) := by
  have := digitsValC_map (d0 :: ds2) hd
  simpa using this

theorem jpfBody_decimal (sgn : ℚ) (d0 : ℕ) (ds2 fs : List ℕ)
    (hd : ∀ d ∈ d0 :: ds2, d < 10) (hf : ∀ d ∈ fs, d < 10) :
    jpfBody sgn (digitChar d0 :: (ds2.map digitChar ++
        (if fs = [] then [] else '.' :: fs.map digitChar))) =
      some (sgn * ((digitsVal (d0 :: ds2) : ℚ) +
        (digitsVal fs : ℚ) / (10 : ℚ) ^ fs.length)) := by
  have hdall2 : ∀ c ∈ ds2.map digitChar, isDigit c = true := by
    intro c hc
    obtain ⟨d, hdm, rfl⟩ := List.mem_map.mp hc
    exact (digitChar_facts (hd d (List.mem_cons_of_mem d0 hdm))).1
  have hfacts0 := digitChar_facts (hd d0 (List.mem_cons_self d0 ds2))
  have hvds := digitsValC_cons_map d0 ds2 hd
  rcases fs with - | ⟨f0, fs2⟩
  · have hip : (digitChar d0 :: (ds2.map digitChar ++ [])).takeWhile isDigit =
        digitChar d0 :: ds2.map digitChar := by
      simp only [List.append_nil, List.takeWhile_cons, hfacts0.1, reduceIte]
      rw [takeWhile_all hdall2]
    have hrest : (digitChar d0 :: (ds2.map digitChar ++ [])).dropWhile isDigit =
        ([] : List Char) := by
      simp only [List.append_nil, List.dropWhile_cons, hfacts0.1, reduceIte]
      exact dropWhile_all hdall2
    rw [if_pos rfl]
    simp only [jpfBody, hip, hrest, List.headD_nil]
    rw [if_neg (show ¬((' ' : Char) = '.') from by decide)]
    simp only [List.isEmpty_cons, List.isEmpty_nil, Bool.false_eq_true, false_and, if_false]
    rw [hvds]
    rfl
  · have hfall2 : ∀ c ∈ fs2.map digitChar, isDigit c = true := by
      intro c hc
      obtain ⟨d, hdm, rfl⟩ := List.mem_map.mp hc
      exact (digitChar_facts (hf d (List.mem_cons_of_mem f0 hdm))).1
    have hffacts0 := digitChar_facts (hf f0 (List.mem_cons_self f0 fs2))
    have hvfs := digitsValC_cons_map f0 fs2 hf
    rw [if_neg (by simp)]
    have hip : (digitChar d0 :: (ds2.map digitChar ++
        ('.' :: (f0 :: fs2).map digitChar))).takeWhile isDigit =
        digitChar d0 :: ds2.map digitChar := by
      simp only [List.takeWhile_cons, hfacts0.1, reduceIte]
      rw [takeWhile_append_all hdall2]
      rw [List.takeWhile_cons]
      simp [show isDigit '.' = false from by decide]
    have hrest : (digitChar d0 :: (ds2.map digitChar ++
        ('.' :: (f0 :: fs2).map digitChar))).dropWhile isDigit =
        '.' :: (f0 :: fs2).map digitChar := by
      simp only [List.dropWhile_cons, hfacts0.1, reduceIte]
      rw [dropWhile_append_all hdall2]
      rw [List.dropWhile_cons]
      simp [show isDigit '.' = false from by decide]
    simp only [jpfBody, hip, hrest]
    simp only [List.headD_cons, List.tail_cons, reduceIte]
    rw [List.map_cons, List.takeWhile_cons, hffacts0.1]
    simp only [reduceIte]
    rw [takeWhile_all hfall2]
    simp only [List.isEmpty_cons, Bool.false_eq_true, false_and, if_false]
    rw [hvds]
    simp only [List.map_cons] at hvfs
    rw [hvfs]
    simp only [List.length_cons, List.length_map]

theorem dropWhile_space_cons_of_ne {c : Char} (h : ¬ c = ' ') (l : List Char) :
    (c :: l).dropWhile (fun c => c = ' ') = c :: l := by
  simp [List.dropWhile_cons, h]

theorem jsParseFloat_decimal (neg : Bool) (ds fs : List ℕ) (hds : ds ≠ [])
    (hd : ∀ d ∈ ds, d < 10) (hf : ∀ d ∈ fs, d < 10) :
    jsParseFloat (decRender neg ds fs).data = some (decValue neg ds fs) := by
  obtain ⟨d0, ds2, rfl⟩ : ∃ d0 ds2, ds = d0 :: ds2 := by
    cases ds with
    | nil => exact absurd rfl hds
    | cons a b => exact ⟨a, b, rfl⟩
  have hfacts0 := digitChar_facts (hd d0 (List.mem_cons_self d0 ds2))
  cases neg with
  | true =>
    have hdata : (decRender true (d0 :: ds2) fs).data =
        '-' :: (digitChar d0 :: (ds2.map digitChar ++
          (if fs = [] then [] else '.' :: fs.map digitChar))) := by
      simp [decRender]
    rw [hdata]
    simp only [jsParseFloat]
    rw [dropWhile_space_cons_of_ne (show ¬ ('-' : Char) = ' ' from by decide)]
    simp only [List.headD_cons, List.tail_cons]
    norm_num
    rw [jpfBody_decimal (-1) d0 ds2 fs hd hf]
    simp [decValue]
  | false =>
    have hdata : (decRender false (d0 :: ds2) fs).data =
        digitChar d0 :: (ds2.map digitChar ++
          (if fs = [] then [] else '.' :: fs.map digitChar)) := by
      simp [decRender]
    rw [hdata]
    simp only [jsParseFloat]
    rw [dropWhile_space_cons_of_ne (show ¬ digitChar d0 = ' ' from by
      simp [hfacts0.2.2.2.1])]
    simp only [List.headD_cons, hfacts0.2.2.2.2.1, hfacts0.2.2.2.2.2.1]
    norm_num
    rw [jpfBody_decimal 1 d0 ds2 fs hd hf]
    simp [decValue]

theorem parser_at_end (e : String) (vars : Vars) (pos : ℕ) (cs : Bool)
    (h : e.length ≤ pos) : parser e vars pos cs = .ok (defTok, pos) := by
  simp only [parser]
  have hdrop : e.data.drop pos = [] := List.drop_eq_nil_of_le h
  rw [hdrop]
  have hcw : countWhile (fun c => c = ' ') ([] : List Char) = 0 := rfl
  rw [hcw]
  have hlen : e.length = e.data.length := rfl
  have hch : charAt e (pos + 0) = none := by
    apply List.get?_eq_none.mpr
    show e.data.length ≤ pos + 0
    omega
  rw [hch]
  norm_num

theorem c4_parser_number (neg : Bool) (ds fs : List ℕ) (hds : ds ≠ [])
    (hd : ∀ d ∈ ds, d < 10) (hf : ∀ d ∈ fs, d < 10) (vars : Vars) :
    parser ("=" ++ decRender neg ds fs) vars 1 true =
      .ok (Tok.mk .value .value false (some .number) none
        (some (decValue neg ds fs)) none none,
        ("=" ++ decRender neg ds fs).length) := by
  obtain ⟨d0, ds2, rfl⟩ : ∃ d0 ds2, ds = d0 :: ds2 := by
    cases ds with
    | nil => exact absurd rfl hds
    | cons a b => exact ⟨a, b, rfl⟩
  have hfacts0 := digitChar_facts (hd d0 (List.mem_cons_self d0 ds2))
  have hpf := jsParseFloat_decimal neg (d0 :: ds2) fs hds hd hf
  have hrestAll : ∀ c ∈ ds2.map digitChar ++
      (if fs = [] then [] else '.' :: fs.map digitChar),
      (isDigit c || c = '.') = true := by
    intro c hc
    rcases List.mem_append.mp hc with hc | hc
    · obtain ⟨d, hdm, rfl⟩ := List.mem_map.mp hc
      simp [(digitChar_facts (hd d (List.mem_cons_of_mem d0 hdm))).1]
    · rcases fs with - | ⟨f0, fs2⟩
      · simp at hc
      · rw [if_neg (by simp)] at hc
        rcases List.mem_cons.mp hc with rfl | hc
        · simp
        · obtain ⟨d, hdm, rfl⟩ := List.mem_map.mp hc
          simp [(digitChar_facts (hf d hdm)).1]
  have hcountRest := countWhile_all hrestAll
  have hlenRest : (ds2.map digitChar ++
      (if fs = [] then [] else '.' :: fs.map digitChar)).length =
      ds2.length + (if fs = [] then 0 else 1 + fs.length) := by
    rcases fs with - | ⟨f0, fs2⟩ <;> simp <;> omega
  cases neg with
  | true =>
    have hdata : ("=" ++ decRender true (d0 :: ds2) fs).data =
        '=' :: '-' :: digitChar d0 :: (ds2.map digitChar ++
          (if fs = [] then [] else '.' :: fs.map digitChar)) := by
      simp [decRender]
    have hlenE : ("=" ++ decRender true (d0 :: ds2) fs).length =
        3 + (ds2.length + (if fs = [] then 0 else 1 + fs.length)) := by
      have : ("=" ++ decRender true (d0 :: ds2) fs).length =
          ("=" ++ decRender true (d0 :: ds2) fs).data.length := rfl
      rw [this, hdata]
      simp only [List.length_cons, hlenRest]
      omega
    have hdataR : (decRender true (d0 :: ds2) fs).data =
        '-' :: digitChar d0 :: (ds2.map digitChar ++
          (if fs = [] then [] else '.' :: fs.map digitChar)) := by
      simp [decRender]
    simp only [parser, hdata, List.drop_succ_cons, List.drop_zero]
    have hcw0 : countWhile (fun c => c = ' ')
        ('-' :: digitChar d0 :: (ds2.map digitChar ++
          (if fs = [] then [] else '.' :: fs.map digitChar))) = 0 := by
      simp [countWhile]
    rw [hcw0]
    have hch1 : charAt ("=" ++ decRender true (d0 :: ds2) fs) (1 + 0) = some '-' := by
      show (("=" ++ decRender true (d0 :: ds2) fs).data).get? (1 + 0) = some '-'
      rw [hdata]
      rfl
    have hch2 : charAt ("=" ++ decRender true (d0 :: ds2) fs) (1 + 0 + 1) =
        some (digitChar d0) := by
      show (("=" ++ decRender true (d0 :: ds2) fs).data).get? (1 + 0 + 1) =
        some (digitChar d0)
      rw [hdata]
      rfl
    simp only [hch1]
    rw [if_neg (show ¬ isCharacter '-' = true from by decide)]
    simp only [true_and, true_or, hch2, Option.elim_some, Option.getD_some,
      hfacts0.1, if_true]
    simp only [numberBranch, subStr, hdata, Nat.add_zero, List.drop_succ_cons,
      List.drop_one, List.tail_cons, List.drop_zero]
    rw [hcountRest]
    have h1 : 1 + 1 + 1 + (ds2.map digitChar ++
        (if fs = [] then [] else '.' :: fs.map digitChar)).length - 1 =
        ('-' :: digitChar d0 :: (ds2.map digitChar ++
          (if fs = [] then [] else '.' :: fs.map digitChar))).length := by
      simp only [List.length_cons]
      omega
    rw [h1, List.take_length]
    have hsv : jsParseFloat (String.mk ('-' :: digitChar d0 :: (ds2.map digitChar ++
        (if fs = [] then [] else '.' :: fs.map digitChar)))).data =
        some (decValue true (d0 :: ds2) fs) := by
      rw [show (String.mk ('-' :: digitChar d0 :: (ds2.map digitChar ++
        (if fs = [] then [] else '.' :: fs.map digitChar)))).data =
        (decRender true (d0 :: ds2) fs).data from by rw [hdataR]]
      exact hpf
    rw [hsv]
    rw [hlenE]
    simp only [Except.ok.injEq, Prod.mk.injEq, finalize, Tok.setCanBinOp, Tok.tkClass,
      hlenRest, List.length_append, List.length_cons, List.length_map]
    try constructor
    all_goals first | rfl | trivial
  | false =>
    have hdataR : (decRender false (d0 :: ds2) fs).data =
        digitChar d0 :: (ds2.map digitChar ++
          (if fs = [] then [] else '.' :: fs.map digitChar)) := by
      simp [decRender]
    have hdata : ("=" ++ decRender false (d0 :: ds2) fs).data =
        '=' :: digitChar d0 :: (ds2.map digitChar ++
          (if fs = [] then [] else '.' :: fs.map digitChar)) := by
      simp [decRender]
    have hlenE : ("=" ++ decRender false (d0 :: ds2) fs).length =
        2 + (ds2.length + (if fs = [] then 0 else 1 + fs.length)) := by
      have h0 : ("=" ++ decRender false (d0 :: ds2) fs).length =
          ("=" ++ decRender false (d0 :: ds2) fs).data.length := rfl
      rw [h0, hdata]
      simp only [List.length_cons, hlenRest]
      omega
    simp only [parser, hdata, List.drop_succ_cons, List.drop_zero]
    have hcw0 : countWhile (fun c => c = ' ')
        (digitChar d0 :: (ds2.map digitChar ++
          (if fs = [] then [] else '.' :: fs.map digitChar))) = 0 := by
      simp [countWhile, hfacts0.2.2.2.1]
    rw [hcw0]
    have hch1 : charAt ("=" ++ decRender false (d0 :: ds2) fs) (1 + 0) =
        some (digitChar d0) := by
      show (("=" ++ decRender false (d0 :: ds2) fs).data).get? (1 + 0) =
        some (digitChar d0)
      rw [hdata]
      rfl
    simp only [hch1]
    rw [if_neg (show ¬ isCharacter (digitChar d0) = true from by
      simp [hfacts0.2.1])]
    simp only [hfacts0.2.2.2.2.1, hfacts0.2.2.2.2.2.1, false_or, or_self,
      and_false, false_and, if_false, hfacts0.1, if_true]
    simp only [numberBranch, subStr, hdata, Nat.add_zero, List.drop_succ_cons,
      List.drop_one, List.tail_cons, List.drop_zero]
    rw [hcountRest]
    have h1 : 1 + 1 + (ds2.map digitChar ++
        (if fs = [] then [] else '.' :: fs.map digitChar)).length - 1 =
        (digitChar d0 :: (ds2.map digitChar ++
          (if fs = [] then [] else '.' :: fs.map digitChar))).length := by
      simp only [List.length_cons]
      omega
    rw [h1, List.take_length]
    have hsv : jsParseFloat (String.mk (digitChar d0 :: (ds2.map digitChar ++
        (if fs = [] then [] else '.' :: fs.map digitChar)))).data =
        some (decValue false (d0 :: ds2) fs) := by
      rw [show (String.mk (digitChar d0 :: (ds2.map digitChar ++
        (if fs = [] then [] else '.' :: fs.map digitChar)))).data =
        (decRender false (d0 :: ds2) fs).data from by rw [hdataR]]
      exact hpf
    rw [hsv]
    rw [hlenE]
    simp only [Except.ok.injEq, Prod.mk.injEq, finalize, Tok.setCanBinOp, Tok.tkClass,
      hlenRest, List.length_append, List.length_cons, List.length_map]
    try constructor
    all_goals first | rfl | trivial | omega

/-- C4 (counterexample): `(1e21).toString()` is `"1e+21"` (JS uses exponent
form for magnitudes at or above 1e21), and evaluating `="1e+21"` raises a
fatal error instead of returning the number: the lexer reads `1`, then `e`
as a variable, and a value directly after a value is illegal. -/
theorem c4_roundtrip_counterexample :
    calcExpr "=1e+21" _vars emptyRegistry = .error (.expErr "=1e+21" "") := by decide

/-- C4 (amended): the round trip holds for every finite number whose
`toString` form is a plain decimal numeral (optional minus sign, integer
digits, optional fraction): evaluating `"=" ++ numeral` returns exactly the
numeral's value. -/
theorem c4_roundtrip_amended (neg : Bool) (ds fs : List ℕ) (hds : ds ≠ [])
    (hd : ∀ d ∈ ds, d < 10) (hf : ∀ d ∈ fs, d < 10) (vars : Vars) (reg : Registry) :
    calcExpr ("=" ++ decRender neg ds fs) vars reg = .ok (.num (decValue neg ds fs)) := by
  have hp1 := c4_parser_number neg ds fs hds hd hf vars
  have hp2 := parser_at_end ("=" ++ decRender neg ds fs) vars
    ("=" ++ decRender neg ds fs).length false le_rfl
  have hrun := singleValue_run ("=" ++ decRender neg ds fs) vars reg [] _ _ hp1 rfl
    ⟨_, _, hp2, rfl⟩
  unfold calcExpr
  rw [hrun]
  rfl

/-- C4 (witness): the amended round trip at the numeral `-42.5`. -/
theorem c4_roundtrip_witness :
    decRender true [4, 2] [5] = "-42.5" ∧ decValue true [4, 2] [5] = -85 / 2 ∧
    calcExpr ("=" ++ decRender true [4, 2] [5]) noVars emptyRegistry =
      .ok (.num (decValue true [4, 2] [5])) :=
  ⟨by decide, by decide, c4_roundtrip_amended true [4, 2] [5] (by decide) (by decide)
    (by decide) noVars emptyRegistry⟩

theorem zipWith_jlift (f : ℚ → ℚ → ℚ) (xs ys : List ℚ) :
    List.zipWith (jlift f) (xs.map some) (ys.map some) =
      (List.zipWith f xs ys).map some := by
  induction xs generalizing ys with
  | nil => simp
  | cons x xr ih =>
    cases ys with
    | nil => simp
    | cons y yr => simp [jlift, ih]

theorem execOp_arrays (es : String) (f : ℚ → ℚ → ℚ) (allowOther : Bool)
    (t1 t2 : Tok) (heap : Heap) (r1 r2 : ℕ) (xs ys : List ℚ)
    (ht1p : t1.paType = some .array) (ht1r : t1.arrayValue = some r1)
    (ht2p : t2.paType = some .array) (ht2r : t2.arrayValue = some r2)
    (h1 : heap.getD r1 [] = xs.map some) (h2 : heap.getD r2 [] = ys.map some) :
    (xs.length = ys.length →
      execOp es f allowOther t1 t2 heap =
        .ok (true, none, t1.setPaType (some .array),
          heap.set r1 ((xs.zipWith f ys).map some))) ∧
    (xs.length ≠ ys.length →
      execOp es f allowOther t1 t2 heap =
        .error (.rawErr "Both arrays must have the same value")) := by
  have h1b : (heap[r1]?.getD ([] : List JQ)) = xs.map some := by
    rw [← List.getD_eq_getElem?_getD]; exact h1
  have h2b : (heap[r2]?.getD ([] : List JQ)) = ys.map some := by
    rw [← List.getD_eq_getElem?_getD]; exact h2
  constructor
  · intro hlen
    simp [execOp, ht1p, ht2p, ht1r, ht2r, h1b, h2b, hlen, zipWith_jlift]
    simp [jlift, List.map_zipWith]
  · intro hlen
    simp [execOp, ht1p, ht2p, ht1r, ht2r, h1b, h2b, hlen]

theorem execOp_mixed (es : String) (f : ℚ → ℚ → ℚ) (allowOther : Bool)
    (ta ts : Tok) (heap : Heap)
    (hap : ta.paType = some .array)
    (hsp : ts.paType = some .number ∨ ts.paType = some .string) :
    execOp es f allowOther ta ts heap = .error (.rawErr "Can only add 2 arrays") ∧
    execOp es f allowOther ts ta heap = .error (.rawErr "Can only add 2 arrays") := by
  have hsp2 : ¬ ts.paType = some PaType.array := by
    rcases hsp with h | h <;> simp [h]
  constructor
  · simp [execOp, hap, hsp2]
  · simp [execOp, hap, hsp2]

/-- C5: for the five element-wise operators `+ - * / %` on numeric arrays:
(a) two array operands whose heap cells are numeric lists of identical
length combine element-wise in `_calcBinary` (the result cell is the
`zipWith` of the operator's scalar function, written over the left
operand's cell); arrays of different lengths raise the fatal error "Both
arrays must have the same value"; (b) an array mixed with a scalar — on
either side — raises the fatal error "Can only add 2 arrays"; and
concretely (c) `=[2,3] + [4,5]` evaluates to `[6,8]`, `=[2,3] + [4,5,6]`
and `=[2,3] + 1` raise those fatal errors. -/
theorem c5_array_elementwise :
    (∀ (es : String) (op t1 t2 : Tok) (heap : Heap) (r1 r2 : ℕ) (xs ys : List ℚ),
      (op.tkType = .plus ∨ op.tkType = .minus ∨ op.tkType = .multiply ∨
        op.tkType = .divide ∨ op.tkType = .mod) →
      t1.paType = some .array → t1.arrayValue = some r1 →
      t2.paType = some .array → t2.arrayValue = some r2 →
      heap.getD r1 [] = xs.map some → heap.getD r2 [] = ys.map some →
      (xs.length = ys.length →
        _calcBinary es op t1 t2 heap =
          .ok ((t1.setPaType (some .array)).setNumValue none,
            heap.set r1 ((xs.zipWith (arithOpFun op.tkType) ys).map some))) ∧
      (xs.length ≠ ys.length →
        _calcBinary es op t1 t2 heap =
          .error (.rawErr "Both arrays must have the same value"))) ∧
    (∀ (es : String) (op ta ts : Tok) (heap : Heap),
      (op.tkType = .plus ∨ op.tkType = .minus ∨ op.tkType = .multiply ∨
        op.tkType = .divide ∨ op.tkType = .mod) →
      ta.paType = some .array →
      (ts.paType = some .number ∨ ts.paType = some .string) →
      _calcBinary es op ta ts heap = .error (.rawErr "Can only add 2 arrays") ∧
      _calcBinary es op ts ta heap = .error (.rawErr "Can only add 2 arrays")) ∧
    calcExpr "=[2,3] + [4,5]" noVars emptyRegistry = .ok (.arr [some 6, some 8]) ∧
    calcExpr "=[2,3] + [4,5,6]" noVars emptyRegistry =
      .error (.rawErr "Both arrays must have the same value") ∧
    calcExpr "=[2,3] + 1" noVars emptyRegistry =
      .error (.rawErr "Can only add 2 arrays") := by
  refine ⟨?_, ?_, by decide, by decide, by decide⟩
  · intro es op t1 t2 heap r1 r2 xs ys hop ht1p ht1r ht2p ht2r h1 h2
    rcases hop with h | h | h | h | h
    · refine ⟨fun hlen => ?_, fun hlen => ?_⟩
      · have hx := (execOp_arrays es (· + ·) true t1 t2 heap r1 r2 xs ys
          ht1p ht1r ht2p ht2r h1 h2).1 hlen
        simp [_calcBinary, h, arithOpFun, hx, Bind.bind, Except.bind]
      · have hx := (execOp_arrays es (· + ·) true t1 t2 heap r1 r2 xs ys
          ht1p ht1r ht2p ht2r h1 h2).2 hlen
        simp [_calcBinary, h, arithOpFun, hx, Bind.bind, Except.bind]
    · refine ⟨fun hlen => ?_, fun hlen => ?_⟩
      · have hx := (execOp_arrays es (· - ·) false t1 t2 heap r1 r2 xs ys
          ht1p ht1r ht2p ht2r h1 h2).1 hlen
        simp [_calcBinary, h, arithOpFun, hx, Bind.bind, Except.bind]
      · have hx := (execOp_arrays es (· - ·) false t1 t2 heap r1 r2 xs ys
          ht1p ht1r ht2p ht2r h1 h2).2 hlen
        simp [_calcBinary, h, arithOpFun, hx, Bind.bind, Except.bind]
    · refine ⟨fun hlen => ?_, fun hlen => ?_⟩
      · have hx := (execOp_arrays es (· * ·) false t1 t2 heap r1 r2 xs ys
          ht1p ht1r ht2p ht2r h1 h2).1 hlen
        simp [_calcBinary, h, arithOpFun, hx, Bind.bind, Except.bind]
      · have hx := (execOp_arrays es (· * ·) false t1 t2 heap r1 r2 xs ys
          ht1p ht1r ht2p ht2r h1 h2).2 hlen
        simp [_calcBinary, h, arithOpFun, hx, Bind.bind, Except.bind]
    · refine ⟨fun hlen => ?_, fun hlen => ?_⟩
      · have hx := (execOp_arrays es (· / ·) false t1 t2 heap r1 r2 xs ys
          ht1p ht1r ht2p ht2r h1 h2).1 hlen
        simp [_calcBinary, h, arithOpFun, hx, Bind.bind, Except.bind]
      · have hx := (execOp_arrays es (· / ·) false t1 t2 heap r1 r2 xs ys
          ht1p ht1r ht2p ht2r h1 h2).2 hlen
        simp [_calcBinary, h, arithOpFun, hx, Bind.bind, Except.bind]
    · refine ⟨fun hlen => ?_, fun hlen => ?_⟩
      · have hx := (execOp_arrays es jsRem false t1 t2 heap r1 r2 xs ys
          ht1p ht1r ht2p ht2r h1 h2).1 hlen
        simp [_calcBinary, h, arithOpFun, hx, Bind.bind, Except.bind]
      · have hx := (execOp_arrays es jsRem false t1 t2 heap r1 r2 xs ys
          ht1p ht1r ht2p ht2r h1 h2).2 hlen
        simp [_calcBinary, h, arithOpFun, hx, Bind.bind, Except.bind]
  · intro es op ta ts heap hop hap hsp
    rcases hop with h | h | h | h | h
    · have hx := execOp_mixed es (· + ·) true ta ts heap hap hsp
      exact ⟨by simp [_calcBinary, h, hx.1, Bind.bind, Except.bind],
        by simp [_calcBinary, h, hx.2, Bind.bind, Except.bind]⟩
    · have hx := execOp_mixed es (· - ·) false ta ts heap hap hsp
      exact ⟨by simp [_calcBinary, h, hx.1, Bind.bind, Except.bind],
        by simp [_calcBinary, h, hx.2, Bind.bind, Except.bind]⟩
    · have hx := execOp_mixed es (· * ·) false ta ts heap hap hsp
      exact ⟨by simp [_calcBinary, h, hx.1, Bind.bind, Except.bind],
        by simp [_calcBinary, h, hx.2, Bind.bind, Except.bind]⟩
    · have hx := execOp_mixed es (· / ·) false ta ts heap hap hsp
      exact ⟨by simp [_calcBinary, h, hx.1, Bind.bind, Except.bind],
        by simp [_calcBinary, h, hx.2, Bind.bind, Except.bind]⟩
    · have hx := execOp_mixed es jsRem false ta ts heap hap hsp
      exact ⟨by simp [_calcBinary, h, hx.1, Bind.bind, Except.bind],
        by simp [_calcBinary, h, hx.2, Bind.bind, Except.bind]⟩

/-- C5 (witness): the element-wise branch of the theorem applied to `+` on
the concrete arrays `[2,3]` and `[4,5]` stored in heap cells 0 and 1. -/
theorem c5_array_elementwise_witness :
    _calcBinary "=[2,3] + [4,5]"
        (Tok.mk .plus .binary false none none none none none)
        (Tok.mk .value .value false (some .array) none none (some 0) none)
        (Tok.mk .value .value false (some .array) none none (some 1) none)
        [[some 2, some 3], [some 4, some 5]] =
      .ok (((Tok.mk .value .value false (some .array) none none (some 0) none).setPaType
          (some .array)).setNumValue none,
        ([[some 2, some 3], [some 4, some 5]] : Heap).set 0
          (([2, 3].zipWith (arithOpFun .plus) [4, 5]).map some)) :=
  (c5_array_elementwise.1 "=[2,3] + [4,5]"
    (Tok.mk .plus .binary false none none none none none)
    (Tok.mk .value .value false (some .array) none none (some 0) none)
    (Tok.mk .value .value false (some .array) none none (some 1) none)
    [[some 2, some 3], [some 4, some 5]] 0 1 [2, 3] [4, 5]
    (Or.inl rfl) rfl rfl rfl rfl (by decide) (by decide)).1 (by decide)

/-- C6 (counterexample): `+` does not concatenate whenever "either operand
is a non-numeric scalar": if the other operand is an array, evaluation
raises the fatal error "Can only add 2 arrays" instead; here the right
operand `'x'` is a non-numeric scalar. -/
theorem c6_concat_counterexample :
    calcExpr "=[1] + 'x'" noVars emptyRegistry =
      .error (.rawErr "Can only add 2 arrays") := by decide

/-- C6 (amended): for binary `+`, when NEITHER operand is an array and at
least one is non-numeric, both operands are converted to text
(`scalarText`: numbers via their decimal string form, strings via their
payload) and concatenated into a string-typed result token; concretely
`='A' + 'Beamer'` evaluates to `"ABeamer"` and `=1 + 'x'` to `"1x"`. -/
theorem c6_concat_amended :
    (∀ (es : String) (op t1 t2 : Tok) (heap : Heap),
      op.tkType = .plus →
      ¬ t1.paType = some .array → ¬ t2.paType = some .array →
      ¬ (t1.paType = some .number ∧ t2.paType = some .number) →
      _calcBinary es op t1 t2 heap =
        .ok ((t1.setSValue (some (scalarText t1 ++ scalarText t2))).setPaType
          (some .string), heap)) ∧
    calcExpr "='A' + 'Beamer'" noVars emptyRegistry = .ok (.str "ABeamer") ∧
    calcExpr "=1 + 'x'" noVars emptyRegistry = .ok (.str "1x") := by
  refine ⟨?_, by decide, by decide⟩
  intro es op t1 t2 heap hop h1 h2 hnum
  have hx : execOp es (· + ·) true t1 t2 heap = .ok (false, none, t1, heap) := by
    simp [execOp, h1, h2, hnum]
  simp [_calcBinary, hop, hx, Bind.bind, Except.bind]

/-- C6 (witness): the concatenation branch of the theorem at the token pair
`1` (number) and `'x'` (string). -/
theorem c6_concat_witness :
    _calcBinary "=1 + 'x'" (Tok.mk .plus .binary false none none none none none)
        (Tok.mk .value .value false (some .number) none (some 1) none none)
        (Tok.mk .value .value false (some .string) (some "x") none none none) [] =
      .ok (((Tok.mk .value .value false (some .number) none (some 1) none
          none).setSValue
          (some (scalarText (Tok.mk .value .value false (some .number) none (some 1)
            none none) ++
            scalarText (Tok.mk .value .value false (some .string) (some "x") none
              none none)))).setPaType (some .string), []) :=
  c6_concat_amended.1 "=1 + 'x'" (Tok.mk .plus .binary false none none none none none)
    (Tok.mk .value .value false (some .number) none (some 1) none none)
    (Tok.mk .value .value false (some .string) (some "x") none none none) []
    rfl (by decide) (by decide) (by decide)

/-- C7 (counterexample): with the strict flag NOT set, a non-numeric result
(`'12'`, a string) does not fall back to the caller-supplied default 7: the
wrapper coerces the string with `parseFloat` and returns 12. -/
theorem c7_strictnum_counterexample :
    ifExprCalcNum "='12'" (some 7) noVars emptyRegistry false = .ok (.val 12) ∧
    (12 : ℚ) ≠ 7 := by decide

/-- C7 (amended): for an expression whose result `r` is not numeric: if
`r` is defined, strict mode fails with the `MustBeANumber` error and
non-strict mode returns `parseFloat` of `r`'s text form (NOT the
caller-supplied default); the default is used — in both modes — only when
`r` is `undefined` (or the input is not an expression at all). -/
theorem c7_strictnum_amended (e : String) (d : Option ℚ) (vars : Vars)
    (reg : Registry) (r : ExprResult)
    (he : isExpr e = true) (hr : calcExpr e vars reg = .ok r)
    (hnum : ∀ q : ℚ, r ≠ .num q) :
    (r ≠ .undef →
      ifExprCalcNum e d vars reg true = .error (.mustBeANumber e) ∧
      ifExprCalcNum e d vars reg false =
        .ok (match jsParseFloat (jsResultToArgString r).data with
          | some q => .val q
          | Option.none => .nan)) ∧
    (r = .undef → ∀ strict : Bool,
      ifExprCalcNum e d vars reg strict =
        .ok (match d with | some v => .val v | Option.none => .undef)) := by
  rcases r with _ | q | s | xs
  · refine ⟨fun hne => absurd rfl hne, fun _ strict => ?_⟩
    cases strict <;> simp [ifExprCalcNum, he, hr, Bind.bind, Except.bind]
  · exact absurd rfl (hnum q)
  · exact ⟨fun hne => ⟨by simp [ifExprCalcNum, he, hr, Bind.bind, Except.bind],
      by simp [ifExprCalcNum, he, hr, Bind.bind, Except.bind]⟩,
      fun h => ExprResult.noConfusion h⟩
  · exact ⟨fun hne => ⟨by simp [ifExprCalcNum, he, hr, Bind.bind, Except.bind],
      by simp [ifExprCalcNum, he, hr, Bind.bind, Except.bind]⟩,
      fun h => ExprResult.noConfusion h⟩

/-- C7 (witness): the amended theorem at `='12'` with default 7: strict
errors, non-strict returns `parseFloat "12"`. -/
theorem c7_strictnum_witness :
    ifExprCalcNum "='12'" (some 7) noVars emptyRegistry true =
      .error (.mustBeANumber "='12'") ∧
    ifExprCalcNum "='12'" (some 7) noVars emptyRegistry false =
      .ok (match jsParseFloat (jsResultToArgString (.str "12")).data with
        | some q => .val q
        | Option.none => .nan) :=
  (c7_strictnum_amended "='12'" (some 7) noVars emptyRegistry (.str "12")
    (by decide) (by decide) (fun q h => ExprResult.noConfusion h)).1
    (fun h => ExprResult.noConfusion h)

theorem getD_set_same {α : Type} (l : List α) (i : ℕ) (v d : α) (h : i < l.length) :
    (l.set i v).getD i d = v := by
  induction l generalizing i with
  | nil => simp at h
  | cons a t ih =>
    cases i with
    | zero => simp
    | succ n => simpa using ih n (by simpa using h)

theorem getD_set_other {α : Type} (l : List α) (i j : ℕ) (v d : α) (h : j ≠ i) :
    (l.set i v).getD j d = l.getD j d := by
  induction l generalizing i j with
  | nil => simp
  | cons a t ih =>
    cases i with
    | zero =>
      cases j with
      | zero => exact absurd rfl h
      | succ m => simp
    | succ n =>
      cases j with
      | zero => simp
      | succ m => simpa using ih n m (fun hh => h (by rw [hh]))

theorem set_of_length_le {α : Type} (l : List α) (i : ℕ) (v : α)
    (h : l.length ≤ i) : l.set i v = l := by
  induction l generalizing i with
  | nil => simp
  | cons a t ih =>
    cases i with
    | zero => simp at h
    | succ n => simpa using ih n (by simpa using h)

theorem getD_of_length_le {α : Type} (l : List α) (i : ℕ) (d : α)
    (h : l.length ≤ i) : l.getD i d = d := by
  induction l generalizing i with
  | nil => simp
  | cons a t ih =>
    cases i with
    | zero => simp at h
    | succ n => simpa using ih n (by simpa using h)

/-- C10: the element-wise operators write their result into the very heap
cell referenced by the left operand — the result token keeps the left
operand's array reference (no copy is made), that cell now holds the
element-wise results, and every other cell is untouched. Concretely, with
the Variable Context binding `myArr` to the array object in cell 0 holding
`[2,3]`, evaluating `=myArr + [1,1]` yields `[3,4]` and overwrites cell 0,
so a later evaluation of `=myArr` against the resulting heap sees `[3,4]`:
the mutation is permanent. -/
theorem c10_array_aliasing :
    (∀ (es : String) (op t1 t2 : Tok) (heap : Heap) (r1 r2 : ℕ) (xs ys : List ℚ)
        (t1r : Tok) (heap2 : Heap),
      (op.tkType = .plus ∨ op.tkType = .minus ∨ op.tkType = .multiply ∨
        op.tkType = .divide ∨ op.tkType = .mod) →
      t1.paType = some .array → t1.arrayValue = some r1 →
      t2.paType = some .array → t2.arrayValue = some r2 →
      heap.getD r1 [] = xs.map some → heap.getD r2 [] = ys.map some →
      xs.length = ys.length →
      _calcBinary es op t1 t2 heap = .ok (t1r, heap2) →
      t1r.arrayValue = some r1 ∧
      heap2.getD r1 [] = (xs.zipWith (arithOpFun op.tkType) ys).map some ∧
      (∀ r, r ≠ r1 → heap2.getD r [] = heap.getD r [])) ∧
    calcExprH "=myArr + [1,1]"
        (fun n => if n = "myArr" then some (JsVar.arr 0) else none)
        emptyRegistry [[some 2, some 3]] =
      some (.ok (.arr [some 3, some 4], [[some 3, some 4], [some 1, some 1]])) ∧
    calcExprH "=myArr"
        (fun n => if n = "myArr" then some (JsVar.arr 0) else none)
        emptyRegistry [[some 3, some 4], [some 1, some 1]] =
      some (.ok (.arr [some 3, some 4], [[some 3, some 4], [some 1, some 1]])) := by
  refine ⟨?_, by decide, by decide⟩
  intro es op t1 t2 heap r1 r2 xs ys t1r heap2 hop ht1p ht1r ht2p ht2r h1 h2 hlen hcb
  have heq : _calcBinary es op t1 t2 heap =
      .ok ((t1.setPaType (some .array)).setNumValue none,
        heap.set r1 ((xs.zipWith (arithOpFun op.tkType) ys).map some)) := by
    rcases hop with h | h | h | h | h
    · have hx := (execOp_arrays es (· + ·) true t1 t2 heap r1 r2 xs ys
        ht1p ht1r ht2p ht2r h1 h2).1 hlen
      simp [_calcBinary, h, arithOpFun, hx, Bind.bind, Except.bind]
    · have hx := (execOp_arrays es (· - ·) false t1 t2 heap r1 r2 xs ys
        ht1p ht1r ht2p ht2r h1 h2).1 hlen
      simp [_calcBinary, h, arithOpFun, hx, Bind.bind, Except.bind]
    · have hx := (execOp_arrays es (· * ·) false t1 t2 heap r1 r2 xs ys
        ht1p ht1r ht2p ht2r h1 h2).1 hlen
      simp [_calcBinary, h, arithOpFun, hx, Bind.bind, Except.bind]
    · have hx := (execOp_arrays es (· / ·) false t1 t2 heap r1 r2 xs ys
        ht1p ht1r ht2p ht2r h1 h2).1 hlen
      simp [_calcBinary, h, arithOpFun, hx, Bind.bind, Except.bind]
    · have hx := (execOp_arrays es jsRem false t1 t2 heap r1 r2 xs ys
        ht1p ht1r ht2p ht2r h1 h2).1 hlen
      simp [_calcBinary, h, arithOpFun, hx, Bind.bind, Except.bind]
  rw [heq] at hcb
  injection hcb with hp
  rw [Prod.ext_iff] at hp
  obtain ⟨ht, hh⟩ := hp
  simp only at ht hh
  subst ht
  subst hh
  refine ⟨?_, ?_, ?_⟩
  · cases t1 with
    | mk a b c d e f g h0 =>
      simpa [Tok.setPaType, Tok.setNumValue, Tok.arrayValue] using ht1r
  · by_cases hlt : r1 < heap.length
    · exact getD_set_same heap r1 _ _ hlt
    · have hle : heap.length ≤ r1 := le_of_not_lt hlt
      rw [set_of_length_le heap r1 _ hle]
      have hz : heap.getD r1 [] = [] := getD_of_length_le heap r1 [] hle
      have hxs : xs = [] := by
        have := h1.symm.trans hz
        exact List.map_eq_nil.mp this
      subst hxs
      simpa using hz
  · intro r hr
    exact getD_set_other heap r1 r _ _ hr

/-- C10 (witness): the mutation facts at `+` on cells 0 (`[2,3]`) and 1
(`[1,1]`): the result token still references cell 0, cell 0 now holds the
element-wise sums, and cell 1 is untouched. -/
theorem c10_array_aliasing_witness :
    (Tok.mk .value .value false (some .array) none none (some 0) none).arrayValue =
      some 0 ∧
    ([[some 3, some 4], [some 1, some 1]] : Heap).getD 0 [] =
      (([2, 3] : List ℚ).zipWith (arithOpFun .plus) [1, 1]).map some ∧
    ([[some 3, some 4], [some 1, some 1]] : Heap).getD 1 [] =
      ([[some 2, some 3], [some 1, some 1]] : Heap).getD 1 [] := by
  have h := c10_array_aliasing.1 "=myArr + [1,1]"
    (Tok.mk .plus .binary false none none none none none)
    (Tok.mk .value .value false (some .array) none none (some 0) none)
    (Tok.mk .value .value false (some .array) none none (some 1) none)
    [[some 2, some 3], [some 1, some 1]] 0 1 [2, 3] [1, 1]
    (Tok.mk .value .value false (some .array) none none (some 0) none)
    [[some 3, some 4], [some 1, some 1]]
    (Or.inl rfl) rfl rfl rfl rfl (by decide) (by decide) (by decide) (by rfl)
  exact ⟨h.1, h.2.1, h.2.2 1 (by decide)⟩
